import Mathlib

/-!
Shallow embedding of the core of the `backtest_opus` repository
(`src/modules/data_loader.py` and `src/modules/indicators.py`) and proofs
about it.

Modelling conventions, fixed once here:

* Timestamps are integers counting seconds; the calendar date of a
  timestamp is its floor-division by 86400 (naive datetimes, fixed-offset
  clock with no DST, as in the market data the loader reads).  A
  `tolerance_minutes` parameter of `m` minutes is the seconds bound `m * 60`.
* A pandas cell is modelled by `Cell`: `asNum` is what
  `pd.to_numeric(..., errors := coerce)` would yield for the cell
  (`none` = NaN), `asDt` is what `pd.to_datetime(..., errors := coerce)`
  would yield (`none` = NaT / unparseable), `asStr` is the cell's value when
  it is a plain string.  This abstracts the pandas parsers, which are
  library code outside the repository.
* A `DataFrame` is modelled row-major by `Frame`: an ordered header of
  column names plus a list of rows of cells.  Column access is by first
  occurrence of the name, as in pandas for unique column labels.
* `NaN`-propagating float arithmetic is modelled on `Option ℚ`; division
  by zero is mapped to the undefined value `none` (pandas produces ±inf
  there; no theorem below depends on a division by zero).
* Python exceptions that escape a function are modelled with
  `Except String`; a raised exception is `Except.error` with a message
  naming the Python exception class.
-/

/-- One pandas cell, recording how each relevant coercion would read it. -/
structure Cell where
  asNum : Option ℚ
  asDt : Option Int
  asStr : Option String
deriving DecidableEq, Repr

/-- The cell every coercion reads as missing. -/
def Cell.empty : Cell := Cell.mk none none none

/-- A pandas DataFrame: ordered column names and row-major cells. -/
structure Frame where
  header : List String
  rows : List (List Cell)
deriving DecidableEq, Repr

/-- The empty DataFrame `pd.DataFrame()`. -/
def emptyFrame : Frame := Frame.mk [] []

/-- First index of `a` in a list, as pandas resolves a column label. -/
def findIdxA {α : Type} [DecidableEq α] (a : α) : List α → Option Nat
  | [] => none
  | x :: xs => if x = a then some 0 else (findIdxA a xs).map (fun i => i + 1)

/-- Association-list lookup by first key occurrence (a Python dict get). -/
def alookup {α β : Type} [DecidableEq α] (k : α) : List (α × β) → Option β
  | [] => none
  | p :: rest => if p.1 = k then some p.2 else alookup k rest

/-- Column read `df[c]`: `none` when the label is absent.  Rows shorter than
the header give missing cells for the trailing columns. -/
def getCol (f : Frame) (c : String) : Option (List Cell) :=
  (findIdxA c f.header).map (fun i => f.rows.map (fun r => r.getD i Cell.empty))

/-- Column write `df[c] = vals`: overwrite in place when the label exists,
otherwise append the column at the end (pandas assignment semantics). -/
def setCol (f : Frame) (c : String) (vals : List Cell) : Frame :=
  match findIdxA c f.header with
  | some i => Frame.mk f.header (List.zipWith (fun r v => r.set i v) f.rows vals)
  | none => Frame.mk (f.header ++ [c]) (List.zipWith (fun r v => r ++ [v]) f.rows vals)

/-- A rectangular frame: every row has exactly one cell per header entry.
Tables read by `pd.read_csv` are rectangular. -/
def Frame.Rect (f : Frame) : Prop := ∀ r ∈ f.rows, r.length = f.header.length

/-- Model of Python `str.upper` on one character (ASCII letters, as in the
option-type and file-name strings the loader handles). -/
def upChar (c : Char) : Char :=
  match c with
  | 'a' => 'A' | 'b' => 'B' | 'c' => 'C' | 'd' => 'D' | 'e' => 'E' | 'f' => 'F'
  | 'g' => 'G' | 'h' => 'H' | 'i' => 'I' | 'j' => 'J' | 'k' => 'K' | 'l' => 'L'
  | 'm' => 'M' | 'n' => 'N' | 'o' => 'O' | 'p' => 'P' | 'q' => 'Q' | 'r' => 'R'
  | 's' => 'S' | 't' => 'T' | 'u' => 'U' | 'v' => 'V' | 'w' => 'W' | 'x' => 'X'
  | 'y' => 'Y' | 'z' => 'Z'
  | other => other

/-- Model of Python `str.lower` on one character (ASCII letters). -/
def downChar (c : Char) : Char :=
  match c with
  | 'A' => 'a' | 'B' => 'b' | 'C' => 'c' | 'D' => 'd' | 'E' => 'e' | 'F' => 'f'
  | 'G' => 'g' | 'H' => 'h' | 'I' => 'i' | 'J' => 'j' | 'K' => 'k' | 'L' => 'l'
  | 'M' => 'm' | 'N' => 'n' | 'O' => 'o' | 'P' => 'p' | 'Q' => 'q' | 'R' => 'r'
  | 'S' => 's' | 'T' => 't' | 'U' => 'u' | 'V' => 'v' | 'W' => 'w' | 'X' => 'x'
  | 'Y' => 'y' | 'Z' => 'z'
  | other => other

/-- Model of Python `str.upper`. -/
def pyUpper (s : String) : String := String.mk (s.data.map upChar)

/-- Model of Python `str.lower`. -/
def pyLower (s : String) : String := String.mk (s.data.map downChar)

/-- Model of Python `str.strip` (space trimming on both ends). -/
def pyStrip (s : String) : String :=
  String.mk (((s.data.dropWhile (fun c => c = ' ')).reverse.dropWhile
    (fun c => c = ' ')).reverse)

/-- `df.columns.str.lower().str.strip()` applied to one column name. -/
def pyLowerStrip (s : String) : String := pyStrip (pyLower s)

/-- Coerce a cell with `pd.to_numeric(..., errors := coerce)`. -/
def coerceNumCell (cl : Cell) : Cell := Cell.mk cl.asNum none none

/-- Coerce a cell with `pd.to_datetime(..., errors := coerce)`. -/
def coerceDtCell (cl : Cell) : Cell := Cell.mk none cl.asDt none

/-- `df.columns = df.columns.str.lower().str.strip()`. -/
def lowerHeader (f : Frame) : Frame :=
  Frame.mk (f.header.map pyLowerStrip) f.rows

/-- The datetime step of `OptionsDataLoader._standardize_dataframe`: find the
first of the candidate timestamp column names that is present and assign its
coerced values to column `datetime`. -/
def applyDt (f : Frame) : Frame :=
  match ["datetime", "date", "time", "timestamp"].find?
      (fun c => (findIdxA c f.header).isSome) with
  | none => f
  | some c =>
    match getCol f c with
    | none => f
    | some cells => setCol f "datetime" (cells.map coerceDtCell)

/-- One column of the numeric step of
`OptionsDataLoader._standardize_dataframe`: coerce the column when it is
present. -/
def coerceNumStep (g : Frame) (c : String) : Frame :=
  match getCol g c with
  | none => g
  | some cells => setCol g c (cells.map coerceNumCell)

/-- The numeric step of `OptionsDataLoader._standardize_dataframe`: coerce
each of the OHLCV/OI columns that is present. -/
def applyNum (f : Frame) : Frame :=
  ["open", "high", "low", "close", "volume", "oi"].foldl coerceNumStep f

/-- `OptionsDataLoader._standardize_dataframe`. -/
def standardize (f : Frame) : Frame := applyNum (applyDt (lowerHeader f))

/-- Calendar date (day index) of a timestamp in seconds. -/
def dateOf (t : Int) : Int := Int.fdiv t 86400

/-- Python `int()` truncation of a float toward zero. -/
def pyInt (q : ℚ) : Int := if 0 ≤ q then Int.floor q else -(Int.floor (-q))

/-- A Python float strike argument, recorded through the three ways
`load_option_data` consumes it: its string form (the f-string rendering),
`int(strike)`, and its numeric value (stamped into the `strike` column). -/
structure Strike where
  str : String
  intPart : Int
  val : ℚ
deriving DecidableEq, Repr

/-- One expiry folder: file name to file content.  `some none` is a file
whose read raises (I/O or CSV failure); `some (some f)` reads frame `f`. -/
abbrev OptFolder := List (String × Option Frame)

/-- The strike index `{CE: [...], PE: [...]}` for one expiry. -/
structure Strikes where
  ce : List ℚ
  pe : List ℚ
deriving DecidableEq, Repr

/-- `OptionsDataLoader` state: the expiry index (date code to folder) built
at construction, plus the two caches. -/
structure OptLoader where
  expiryFolders : List (Int × OptFolder)
  strikeCache : List (String × Strikes)
  dataCache : List (String × Frame)
deriving Repr

/-- The data-cache key `f"{expiry_date}_{strike}_{option_type}"` (ISO date
rendering modelled by the decimal day code, injectively). -/
def cacheKey (e : Int) (s : Strike) (ot : String) : String :=
  String.mk ((toString e).data ++ '_' :: s.str.data ++ '_' :: ot.data)

/-- The exact-representation file name `f"{strike}_{option_type.upper()}.csv"`. -/
def fileName1 (s : Strike) (ot : String) : String :=
  s.str ++ "_" ++ pyUpper ot ++ ".csv"

/-- The fallback file name `f"{int(strike)}.0_{option_type.upper()}.csv"`. -/
def fileName2 (s : Strike) (ot : String) : String :=
  toString s.intPart ++ ".0_" ++ pyUpper ot ++ ".csv"

/-- File-name resolution of `load_option_data`: the exact strike
representation first, then the normalized integer-with-one-decimal form. -/
def resolveFile (folder : OptFolder) (s : Strike) (ot : String) :
    Option (Option Frame) :=
  match alookup (fileName1 s ot) folder with
  | some content => some content
  | none => alookup (fileName2 s ot) folder

/-- Stamp `df['strike'] = strike; df['option_type'] = option_type.upper()`. -/
def stampFrame (df : Frame) (s : Strike) (ot : String) : Frame :=
  let df1 := setCol df "strike"
    (List.replicate df.rows.length (Cell.mk (some s.val) none none))
  setCol df1 "option_type"
    (List.replicate df1.rows.length (Cell.mk none none (some (pyUpper ot))))

/-- The cache-free part of `load_option_data`: expiry lookup, file
resolution, read (a raising read is caught and becomes `none`),
standardization and stamping. -/
def pureLoadOptionData (folders : List (Int × OptFolder)) (e : Int)
    (s : Strike) (ot : String) : Option Frame :=
  match alookup e folders with
  | none => none
  | some folder =>
    match resolveFile folder s ot with
    | none => none
    | some none => none
    | some (some raw) => some (stampFrame (standardize raw) s ot)

/-- `OptionsDataLoader.load_option_data`: serve from the data cache when the
key is present, otherwise load and (on success only) cache. -/
def loadOptionData (l : OptLoader) (e : Int) (s : Strike) (ot : String) :
    Option Frame × OptLoader :=
  match alookup (cacheKey e s ot) l.dataCache with
  | some df => (some df, l)
  | none =>
    match pureLoadOptionData l.expiryFolders e s ot with
    | some df =>
      (some df, OptLoader.mk l.expiryFolders l.strikeCache
        ((cacheKey e s ot, df) :: l.dataCache))
    | none => (none, l)

/-- `OptionsDataLoader.clear_cache`. -/
def clearCache (l : OptLoader) : OptLoader :=
  OptLoader.mk l.expiryFolders [] []

/-- `OptionsDataLoader.get_available_expiries`: the sorted expiry keys. -/
def getAvailableExpiries (l : OptLoader) : List Int :=
  List.insertionSort (fun a b => a ≤ b) (l.expiryFolders.map Prod.fst)

/-- `OptionsDataLoader.get_expiry_for_date`: first expiry that is on or
after the queried date, scanning in ascending order. -/
def getExpiryForDate (l : OptLoader) (d : Int) : Option Int :=
  (getAvailableExpiries l).find? (fun e => decide (d ≤ e))

/-- Split a file stem at its last underscore (`str.rsplit` with one split);
`none` when no underscore occurs. -/
def rsplitUnderscore (s : String) : Option (String × String) :=
  let rev := s.data.reverse
  match rev.dropWhile (fun c => decide (c ≠ '_')) with
  | [] => none
  | _ :: r =>
    some (String.mk r.reverse,
      String.mk ((rev.takeWhile (fun c => decide (c ≠ '_'))).reverse))

/-- Value of a decimal digit character. -/
def digitVal (c : Char) : Option Nat :=
  if c.isDigit then some (c.toNat - 48) else none

/-- Accumulate decimal digits; `none` on any non-digit. -/
def digitsValGo (acc : Nat) : List Char → Option Nat
  | [] => some acc
  | c :: cs =>
    match digitVal c with
    | none => none
    | some d => digitsValGo (acc * 10 + d) cs

/-- Read a nonempty all-digit string. -/
def digitsVal : List Char → Option Nat
  | [] => none
  | c :: cs => digitsValGo 0 (c :: cs)

/-- Model of Python `float()` on the plain decimal literals (optional sign,
digits, optional fractional part) that strike file stems carry; anything
else is a `ValueError`, modelled as `none`. -/
def pyFloat (s : String) : Option ℚ :=
  let signed : ℚ × List Char :=
    match s.data with
    | '-' :: rest => (-1, rest)
    | cs => (1, cs)
  match signed.2.span (fun c => decide (c ≠ '.')) with
  | (intPart, []) => (digitsVal intPart).map (fun n => signed.1 * n)
  | (intPart, _ :: frac) =>
    match digitsVal intPart, digitsVal frac with
    | some i, some fr =>
      some (signed.1 * ((i : ℚ) + (fr : ℚ) / ((10 : ℚ) ^ frac.length)))
    | _, _ => none

/-- Parse one `<strike>_<type>.csv` stem into a strike and uppercased type. -/
def parseStem (stem : String) : Option (ℚ × String) :=
  match rsplitUnderscore stem with
  | none => none
  | some (a, b) =>
    match pyFloat a with
    | none => none
    | some q => some (q, pyUpper b)

/-- Remove duplicates keeping first occurrences (Python `set` feeding
`sorted`; the sorted result is order-insensitive). -/
def dedupQ (l : List ℚ) : List ℚ :=
  l.foldl (fun acc x => if x ∈ acc then acc else acc ++ [x]) []

/-- `sorted(set(...))` over strikes. -/
def sortedSet (l : List ℚ) : List ℚ :=
  List.insertionSort (fun a b => a ≤ b) (dedupQ l)

/-- `OptionsDataLoader.get_available_strikes`: serve from the strike cache,
return empty lists (uncached) for an unknown expiry, otherwise parse the
folder's `*.csv` stems and cache the sorted de-duplicated result. -/
def getAvailableStrikes (l : OptLoader) (e : Int) : Strikes × OptLoader :=
  match alookup (toString e) l.strikeCache with
  | some s => (s, l)
  | none =>
    match alookup e l.expiryFolders with
    | none => (Strikes.mk [] [], l)
    | some folder =>
      let stems := ((folder.map Prod.fst).filter
        (fun n => n.endsWith ".csv")).map (fun n => n.dropRight 4)
      let parsed := stems.filterMap parseStem
      let ce := sortedSet (parsed.filterMap
        (fun p => if p.2 = "CE" then some p.1 else none))
      let pe := sortedSet (parsed.filterMap
        (fun p => if p.2 = "PE" then some p.1 else none))
      (Strikes.mk ce pe,
        OptLoader.mk l.expiryFolders
          ((toString e, Strikes.mk ce pe) :: l.strikeCache) l.dataCache)

/-- `Series.idxmin` over concrete values: position and value of the minimum,
first occurrence winning (pandas keeps the first minimal label). -/
def idxminAux {α : Type} [LinearOrder α] : List α → Option (Nat × α)
  | [] => none
  | x :: xs =>
    match idxminAux xs with
    | none => some (0, x)
    | some (j, m) => if m < x then some (j + 1, m) else some (0, x)

/-- `Series.idxmin` with NaN entries skipped (`skipna`); `none` when every
entry is NaN (pandas raises there). -/
def idxminOpt : List (Option Nat) → Option (Nat × Nat)
  | [] => none
  | none :: xs => (idxminOpt xs).map (fun p => (p.1 + 1, p.2))
  | some x :: xs =>
    match idxminOpt xs with
    | none => some (0, x)
    | some (j, m) => if m < x then some (j + 1, m) else some (0, x)

/-- The record `get_option_price_at_time` builds from the matched row. -/
structure Quote where
  datetime : Int
  openP : Option ℚ
  highP : Option ℚ
  lowP : Option ℚ
  closeP : Option ℚ
  volume : Int
  oi : Int
deriving DecidableEq, Repr

/-- `row[c]` on a row Series: `KeyError` when the column label is absent. -/
def colAt (df : Frame) (row : List Cell) (c : String) : Except String Cell :=
  match findIdxA c df.header with
  | none => Except.error ("KeyError: " ++ c)
  | some i => Except.ok (row.getD i Cell.empty)

/-- `int(row.get(c, 0))`: 0 for an absent label, `ValueError` when the cell
is NaN (Python `int(nan)` raises), truncation otherwise. -/
def intOrDefault (df : Frame) (row : List Cell) (c : String) :
    Except String Int :=
  match findIdxA c df.header with
  | none => Except.ok 0
  | some i =>
    match (row.getD i Cell.empty).asNum with
    | some q => Except.ok (pyInt q)
    | none => Except.error ("ValueError: " ++ c)

/-- Build the returned dict of `get_option_price_at_time` from the matched
row at datetime `t`: `float(row[c])` for the four price columns (NaN is the
float nan, not an error) and `int(row.get(c, 0))` for volume and OI. -/
def mkQuote (df : Frame) (row : List Cell) (t : Int) : Except String Quote :=
  match colAt df row "open" with
  | Except.error msg => Except.error msg
  | Except.ok oc =>
    match colAt df row "high" with
    | Except.error msg => Except.error msg
    | Except.ok hc =>
      match colAt df row "low" with
      | Except.error msg => Except.error msg
      | Except.ok lc =>
        match colAt df row "close" with
        | Except.error msg => Except.error msg
        | Except.ok cc =>
          match intOrDefault df row "volume" with
          | Except.error msg => Except.error msg
          | Except.ok vol =>
            match intOrDefault df row "oi" with
            | Except.error msg => Except.error msg
            | Except.ok oiv =>
              Except.ok
                (Quote.mk t oc.asNum hc.asNum lc.asNum cc.asNum vol oiv)

/-- `df[df['datetime'].dt.date == timestamp.date()]` paired with each kept
row's parsed timestamp; `none` when the frame has no `datetime` column
(`df['datetime']` raises `KeyError`).  NaT rows compare unequal to every
date and are dropped.  Row order is preserved. -/
def sameDateRows (df : Frame) (ts : Int) : Option (List (List Cell × Int)) :=
  (getCol df "datetime").map (fun cells =>
    (df.rows.zip cells).filterMap (fun p =>
      match p.2.asDt with
      | some t => if dateOf t = dateOf ts then some (p.1, t) else none
      | none => none))

/-- The per-frame body of `get_option_price_at_time`: empty check, date
filter, nearest-timestamp selection by `idxmin`, tolerance check, and the
row-to-dict conversion. -/
def priceFromFrame (df : Frame) (ts : Int) (tolMin : Int) :
    Except String (Option Quote) :=
  if df.rows.isEmpty then Except.ok none else
  match sameDateRows df ts with
  | none => Except.error "KeyError: datetime"
  | some frs =>
    if frs.isEmpty then Except.ok none else
    match idxminAux (frs.map (fun p => (p.2 - ts).natAbs)) with
    | none => Except.ok none
    | some (j, m) =>
      if tolMin * 60 < (m : Int) then Except.ok none
      else
        match frs.getD j ([], 0) with
        | (row, t) => (mkQuote df row t).map some

/-- `OptionsDataLoader.get_option_price_at_time`. -/
def getOptionPriceAtTime (l : OptLoader) (e : Int) (s : Strike) (ot : String)
    (ts : Int) (tolMin : Int) : Except String (Option Quote) × OptLoader :=
  match loadOptionData l e s ot with
  | (none, l2) => (Except.ok none, l2)
  | (some df, l2) => (priceFromFrame df ts tolMin, l2)

/-- `SpotDataLoader` state.  In folder mode the per-date files are split by
name format: `filesIso` holds the `f"{trade_date}.csv"` candidates and
`filesCompact` the `f"{trade_date:%Y%m%d}.csv"` ones (the two renderings
never collide, so the two maps partition the folder).  `some none` is a
file whose `pd.read_csv` raises.  In file mode `data` is the consolidated
table as standardized and sorted at construction. -/
structure SpotLoader where
  isFolder : Bool
  filesIso : List (Int × Option Frame)
  filesCompact : List (Int × Option Frame)
  data : Option Frame
deriving Repr

/-- Folder-mode per-date read of `SpotDataLoader.get_data_for_date`:
`pd.read_csv` (a raising read propagates - it is not wrapped), header
lower/strip, and strict `pd.to_datetime` on a present `datetime` column
(an unparseable cell raises; no numeric coercion, no sort). -/
def readSpotFile (content : Option Frame) : Except String Frame :=
  match content with
  | none => Except.error "IOError: read_csv"
  | some raw =>
    let f := lowerHeader raw
    match getCol f "datetime" with
    | none => Except.ok f
    | some cells =>
      if cells.all (fun cl => cl.asDt.isSome) then
        Except.ok (setCol f "datetime" (cells.map coerceDtCell))
      else Except.error "ParseError: to_datetime"

/-- `SpotDataLoader.get_data_for_date`. -/
def getDataForDate (sl : SpotLoader) (d : Int) : Except String Frame :=
  if sl.isFolder then
    match alookup d sl.filesIso with
    | some content => readSpotFile content
    | none =>
      match alookup d sl.filesCompact with
      | some content => readSpotFile content
      | none => Except.ok emptyFrame
  else
    match sl.data with
    | none => Except.ok emptyFrame
    | some f =>
      match getCol f "datetime" with
      | none => Except.ok emptyFrame
      | some cells =>
        Except.ok (Frame.mk f.header
          ((f.rows.zip cells).filterMap (fun p =>
            match p.2.asDt with
            | some t => if dateOf t = d then some p.1 else none
            | none => none)))

/-- Nearest-bar selection of `get_spot_price_at_time` on one frame: the
matched bar's timestamp and its `close` cell.  `df['datetime']` raises on a
missing column; an all-NaT `idxmin` raises; `df.loc[idx, 'close']` raises on
a missing `close` column. -/
def spotPick (f : Frame) (ts : Int) (tolMin : Int) :
    Except String (Option (Int × Option ℚ)) :=
  if f.rows.isEmpty then Except.ok none else
  match getCol f "datetime" with
  | none => Except.error "KeyError: datetime"
  | some cells =>
    match idxminOpt (cells.map (fun cl =>
        cl.asDt.map (fun t => (t - ts).natAbs))) with
    | none => Except.error "ValueError: idxmin"
    | some (j, m) =>
      if tolMin * 60 < (m : Int) then Except.ok none
      else
        match colAt f (f.rows.getD j []) "close" with
        | Except.error msg => Except.error msg
        | Except.ok cl =>
          Except.ok (some (((cells.getD j Cell.empty).asDt).getD 0, cl.asNum))

/-- `SpotDataLoader.get_spot_price_at_time`: fetch the day's bars with
`get_data_for_date` (whose exceptions propagate) and return the matched
bar's close. -/
def getSpotPriceAtTime (sl : SpotLoader) (ts : Int) (tolMin : Int) :
    Except String (Option (Option ℚ)) :=
  match getDataForDate sl (dateOf ts) with
  | Except.error msg => Except.error msg
  | Except.ok f =>
    match spotPick f ts tolMin with
    | Except.error msg => Except.error msg
    | Except.ok r => Except.ok (r.map Prod.snd)

/-- A pandas float Series: `none` is NaN. -/
abbrev Series := List (Option ℚ)

/-- NaN-propagating subtraction. -/
def osub : Option ℚ → Option ℚ → Option ℚ
  | some a, some b => some (a - b)
  | _, _ => none

/-- NaN-propagating addition. -/
def oadd : Option ℚ → Option ℚ → Option ℚ
  | some a, some b => some (a + b)
  | _, _ => none

/-- NaN-propagating absolute value (`np.abs`). -/
def oabs : Option ℚ → Option ℚ
  | some a => some |a|
  | none => none

/-- NaN-propagating division; a zero divisor is mapped to the undefined
value (see the module comment). -/
def odiv : Option ℚ → Option ℚ → Option ℚ
  | some a, some b => if b = 0 then none else some (a / b)
  | _, _ => none

/-- `Series.diff()`: first entry NaN, then successive differences. -/
def seriesDiff (xs : Series) : Series :=
  match xs with
  | [] => []
  | _ :: rest => none :: List.zipWith osub rest xs

/-- `Series.shift(p)`: `p` leading NaNs, length preserved. -/
def shiftN (p : Nat) (xs : Series) : Series :=
  (List.replicate p none ++ xs).take xs.length

/-- `s.where(s > 0, 0)` (and the `delta.where(delta > 0, 0)` gain pattern):
keep strictly positive entries, everything else - NaN included, since
`NaN > 0` is false - becomes 0. -/
def whereWithPos (xs : Series) : Series :=
  xs.map (fun d =>
    match d with
    | some v => some (if 0 < v then v else 0)
    | none => some 0)

/-- The `(-delta).where(delta < 0, 0)` loss pattern of `rsi`. -/
def lossesOf (delta : Series) : Series :=
  delta.map (fun d =>
    match d with
    | some v => some (if v < 0 then -v else 0)
    | none => some 0)

/-- `s.diff().abs().where(lambda x: x > 0, 0)` (the `minus_dm` of `adx`). -/
def absWherePos (xs : Series) : Series :=
  xs.map (fun d =>
    match d with
    | some v => some (if 0 < |v| then |v| else 0)
    | none => some 0)

/-- Recursion of `Series.ewm(alpha=a, adjust=False, min_periods=m).mean()`:
`prev` is the running mean over the observations seen so far and `cnt` their
count.  A NaN input leaves the mean and the count unchanged; the output is
NaN until `m` observations have accumulated. -/
def ewmGo (a : ℚ) (m : Nat) : Option ℚ → Nat → Series → Series
  | _, _, [] => []
  | prev, cnt, none :: xs =>
    (if m ≤ cnt then prev else none) :: ewmGo a m prev cnt xs
  | prev, cnt, some v :: xs =>
    let mean : ℚ :=
      match prev with
      | none => v
      | some p => (1 - a) * p + a * v
    (if m ≤ cnt + 1 then some mean else none) ::
      ewmGo a m (some mean) (cnt + 1) xs

/-- `Series.ewm(alpha=a, adjust=False, min_periods=m).mean()`, seeded from
the first observation. -/
def ewmWilder (a : ℚ) (m : Nat) (xs : Series) : Series := ewmGo a m none 0 xs

/-- `Series.replace(0, np.nan)` on one entry. -/
def replaceZero (x : Option ℚ) : Option ℚ :=
  match x with
  | some v => if v = 0 then none else some v
  | none => none

/-- `Series.fillna(d)` on one entry. -/
def fillna (d : ℚ) (x : Option ℚ) : Option ℚ :=
  match x with
  | none => some d
  | some v => some v

/-- `100 - 100 / (1 + rs)` on one entry, NaN propagating. -/
def rsiStep (r : Option ℚ) : Option ℚ :=
  match r with
  | none => none
  | some v => if 1 + v = 0 then none else some (100 - 100 / (1 + v))

/-- The observations inside the rolling window ending at position `i` of
`IndicatorCalculator.sma` (`window=p`, `min_periods=1`): the last `p`
entries of the prefix, NaNs dropped; windows shrink at the start. -/
def smaWindow (close : Series) (p i : Nat) : List ℚ :=
  ((close.take (i + 1)).drop (i + 1 - p)).filterMap id

/-- `IndicatorCalculator.sma`, continued: the mean at each position. -/
def sma (close : Series) (p : Nat) : Series :=
  (List.range close.length).map (fun i =>
    if (smaWindow close p i).isEmpty then none
    else some ((smaWindow close p i).sum / ((smaWindow close p i).length : ℚ)))

/-- The Wilder-smoothed average gain of `IndicatorCalculator.rsi`. -/
def avgGain (close : Series) (p : Nat) : Series :=
  ewmWilder (1 / (p : ℚ)) p (whereWithPos (seriesDiff close))

/-- The Wilder-smoothed average loss of `IndicatorCalculator.rsi`. -/
def avgLoss (close : Series) (p : Nat) : Series :=
  ewmWilder (1 / (p : ℚ)) p (lossesOf (seriesDiff close))

/-- `IndicatorCalculator.rsi`: RS is average gain over zero-replaced average
loss, and every NaN of `100 - 100/(1+RS)` - warm-up rows included - is
filled with 50. -/
def rsi (close : Series) (p : Nat) : Series :=
  (List.zipWith odiv (avgGain close p)
    ((avgLoss close p).map replaceZero)).map (fun r => fillna 50 (rsiStep r))

/-- Skipna row maximum of `pd.concat([...], axis=1).max(axis=1)` for two
entries. -/
def omax2 : Option ℚ → Option ℚ → Option ℚ
  | some a, some b => some (max a b)
  | some a, none => some a
  | none, some b => some b
  | none, none => none

/-- The true range `max(high-low, |high-prevClose|, |low-prevClose|)` of
`IndicatorCalculator.atr`, with pandas skipna row-max semantics. -/
def trueRange (high low close : Series) : Series :=
  let hl := List.zipWith osub high low
  let hc := List.zipWith (fun h c => oabs (osub h c)) high (shiftN 1 close)
  let lc := List.zipWith (fun l c => oabs (osub l c)) low (shiftN 1 close)
  List.zipWith omax2 (List.zipWith omax2 hl hc) lc

/-- `IndicatorCalculator.atr`: Wilder smoothing of the true range with
`min_periods=period` and no fill. -/
def atr (high low close : Series) (p : Nat) : Series :=
  ewmWilder (1 / (p : ℚ)) p (trueRange high low close)

/-- `IndicatorCalculator.adx` (the `adx` entry of the returned dict), first
part: directional movements and true range Wilder-smoothed, DX from the
directional indices with a zero denominator replaced by NaN. -/
def adxDx (high low close : Series) (p : Nat) : Series :=
  let plusDm := whereWithPos (seriesDiff high)
  let minusDm := absWherePos (seriesDiff low)
  let tr := atr high low close 1
  let smoothedTr := ewmWilder (1 / (p : ℚ)) p tr
  let plusDi := List.zipWith odiv
    ((ewmWilder (1 / (p : ℚ)) p plusDm).map (fun x => x.map (fun v => 100 * v)))
    smoothedTr
  let minusDi := List.zipWith odiv
    ((ewmWilder (1 / (p : ℚ)) p minusDm).map (fun x => x.map (fun v => 100 * v)))
    smoothedTr
  List.zipWith odiv
    ((List.zipWith osub plusDi minusDi).map (fun x => (oabs x).map (fun v => 100 * v)))
    ((List.zipWith oadd plusDi minusDi).map replaceZero)

/-- `IndicatorCalculator.adx`, continued: the DX series Wilder-smoothed once
more and NaN-filled with 0. -/
def adx (high low close : Series) (p : Nat) : Series :=
  (ewmWilder (1 / (p : ℚ)) p (adxDx high low close p)).map (fillna 0)

/-- `IndicatorCalculator.momentum`: `close - close.shift(period)`. -/
def momentum (close : Series) (p : Nat) : Series :=
  List.zipWith osub close (shiftN p close)

/-- The column `c`, when present, holds a numeric value in every row. -/
def numericAt (df : Frame) (c : String) : Prop :=
  ∀ i, findIdxA c df.header = some i →
    ∀ r ∈ df.rows, ((r.getD i Cell.empty).asNum).isSome = true

/-- A loaded table on which `get_option_price_at_time` has everything it
touches: the datetime and four price columns exist, and volume/OI cells -
when those columns exist - are numeric. -/
def wellFormedFrame (df : Frame) : Prop :=
  (findIdxA "datetime" df.header).isSome = true ∧
  (findIdxA "open" df.header).isSome = true ∧
  (findIdxA "high" df.header).isSome = true ∧
  (findIdxA "low" df.header).isSome = true ∧
  (findIdxA "close" df.header).isSome = true ∧
  numericAt df "volume" ∧ numericAt df "oi"

/-- A datetime cell. -/
def dtCell (t : Int) : Cell := Cell.mk none (some t) none

/-- A numeric cell. -/
def numCell (v : ℚ) : Cell := Cell.mk (some v) none none

/-- Example contract file: two bars of one calendar day, the later bar
stored first (CSV files carry no ordering guarantee). -/
def exFrame : Frame :=
  Frame.mk ["datetime", "open", "high", "low", "close"]
    [[dtCell 600, numCell 1, numCell 2, numCell 0, numCell 1],
     [dtCell 0, numCell 1, numCell 2, numCell 0, numCell 1]]

/-- Example strike 100.0 rendered as `"100"`. -/
def exStrike : Strike := Strike.mk "100" 100 100

/-- Example expiry index with the one contract file. -/
def exFolders : List (Int × OptFolder) := [(1, [("100_CE.csv", some exFrame)])]

/-- Freshly constructed loader over `exFolders`. -/
def exLoader : OptLoader := OptLoader.mk exFolders [] []

/-- The quote of `exFrame`'s first-stored (later) bar. -/
def exQuote : Quote := Quote.mk 600 (some 1) (some 2) (some 0) (some 1) 0 0

/-- A contract file with no timestamp-like column at all. -/
def noDtFrame : Frame := Frame.mk ["close"] [[numCell 1]]

/-- Expiry index holding only the datetime-less contract file. -/
def noDtFolders : List (Int × OptFolder) :=
  [(1, [("100_CE.csv", some noDtFrame)])]

/-- Freshly constructed loader over `noDtFolders`. -/
def noDtLoader : OptLoader := OptLoader.mk noDtFolders [] []

/-- Strike 25000.0 as Python renders the float: `"25000.0"`. -/
def exStrike25 : Strike := Strike.mk "25000.0" 25000 25000

/-- A folder holding only `25000.0_CE.csv`. -/
def exFolder25 : OptFolder := [("25000.0_CE.csv", some exFrame)]

/-- Expiry index over `exFolder25`. -/
def exFolders25 : List (Int × OptFolder) := [(1, exFolder25)]

/-- Freshly constructed loader over `exFolders25`. -/
def exLoader25 : OptLoader := OptLoader.mk exFolders25 [] []

/-! ## Helper lemmas -/

theorem alookup_nil {α β : Type} [DecidableEq α] (k : α) :
    alookup k ([] : List (α × β)) = none := rfl

theorem findIdxA_isSome_iff {α : Type} [DecidableEq α] (a : α) :
    ∀ l : List α, (findIdxA a l).isSome = true ↔ a ∈ l := by
  intro l
  induction l with
  | nil => simp [findIdxA]
  | cons x xs ih =>
    by_cases hx : x = a
    · subst hx; simp [findIdxA]
    · rw [List.mem_cons]
      simp only [findIdxA, if_neg hx]
      constructor
      · intro h
        right
        apply ih.mp
        cases hfi : findIdxA a xs with
        | none => rw [hfi] at h; simp at h
        | some j => simp [hfi]
      · intro h
        rcases h with h | h
        · exact absurd h.symm hx
        · have h2 := ih.mpr h
          cases hfi : findIdxA a xs with
          | none => rw [hfi] at h2; simp at h2
          | some j => simp [hfi]

theorem findIdxA_getElem {α : Type} [DecidableEq α] (a : α) :
    ∀ (l : List α) (i : Nat), findIdxA a l = some i → l[i]? = some a := by
  intro l
  induction l with
  | nil => intro i h; simp [findIdxA] at h
  | cons x xs ih =>
    intro i h
    by_cases hx : x = a
    · subst hx
      simp [findIdxA] at h
      subst h
      simp
    · simp only [findIdxA, if_neg hx] at h
      cases hfi : findIdxA a xs with
      | none => rw [hfi] at h; simp at h
      | some j =>
        rw [hfi] at h
        simp at h
        subst h
        simpa using ih j hfi

theorem findIdxA_lt_length {α : Type} [DecidableEq α] {a : α} {l : List α}
    {i : Nat} (h : findIdxA a l = some i) : i < l.length :=
  (List.getElem?_eq_some.mp (findIdxA_getElem a l i h)).1

theorem findIdxA_append_left {α : Type} [DecidableEq α] (a : α) :
    ∀ (l l2 : List α) (i : Nat), findIdxA a l = some i →
      findIdxA a (l ++ l2) = some i := by
  intro l
  induction l with
  | nil => intro l2 i h; simp [findIdxA] at h
  | cons x xs ih =>
    intro l2 i h
    by_cases hx : x = a
    · subst hx
      simp [findIdxA] at h ⊢
      exact h
    · simp only [findIdxA, if_neg hx, List.cons_append, List.append_eq] at h ⊢
      cases hfi : findIdxA a xs with
      | none => rw [hfi] at h; simp at h
      | some j =>
        rw [hfi] at h
        rw [ih l2 j hfi]
        exact h

theorem findIdxA_append_none {α : Type} [DecidableEq α] {a : α}
    {l : List α} {b : α} (h : findIdxA a l = none) (hb : b ≠ a) :
    findIdxA a (l ++ [b]) = none := by
  induction l with
  | nil => simp [findIdxA, hb]
  | cons x xs ih =>
    by_cases hx : x = a
    · simp [findIdxA, hx] at h
    · simp only [findIdxA, if_neg hx, List.cons_append, List.append_eq] at h ⊢
      cases hfi : findIdxA a xs with
      | none => rw [ih hfi]; rfl
      | some j => rw [hfi] at h; simp at h

theorem idxminAux_eq_none {α : Type} [LinearOrder α] :
    ∀ xs : List α, idxminAux xs = none ↔ xs = [] := by
  intro xs
  cases xs with
  | nil => simp [idxminAux]
  | cons x t =>
    simp only [idxminAux]
    cases ht : idxminAux t with
    | none => simp
    | some p =>
      constructor
      · intro h
        split at h <;> first | simp at h | (split at h <;> simp at h)
      · intro h; simp at h

theorem idxminAux_getElem {α : Type} [LinearOrder α] :
    ∀ (xs : List α) (j : Nat) (m : α), idxminAux xs = some (j, m) →
      xs[j]? = some m := by
  intro xs
  induction xs with
  | nil => intro j m h; simp [idxminAux] at h
  | cons x t ih =>
    intro j m h
    simp only [idxminAux] at h
    cases ht : idxminAux t with
    | none =>
      rw [ht] at h
      simp at h
      obtain ⟨hj, hm⟩ := h
      subst hj; subst hm; simp
    | some p =>
      rw [ht] at h
      by_cases hlt : p.2 < x
      · simp [hlt] at h
        obtain ⟨hj, hm⟩ := h
        subst hj; subst hm
        simpa using ih p.1 p.2 (by rw [ht])
      · simp [hlt] at h
        obtain ⟨hj, hm⟩ := h
        subst hj; subst hm
        simp

theorem idxminAux_min {α : Type} [LinearOrder α] :
    ∀ (xs : List α) (j : Nat) (m : α), idxminAux xs = some (j, m) →
      ∀ (k : Nat) (y : α), xs[k]? = some y → m ≤ y := by
  intro xs
  induction xs with
  | nil => intro j m h; simp [idxminAux] at h
  | cons x t ih =>
    intro j m h k y hk
    simp only [idxminAux] at h
    cases ht : idxminAux t with
    | none =>
      rw [ht] at h
      simp at h
      obtain ⟨hj, hm⟩ := h
      subst hj; subst hm
      have hte : t = [] := (idxminAux_eq_none t).mp ht
      subst hte
      cases k with
      | zero => simp at hk; subst hk; exact le_refl _
      | succ k2 => simp at hk
    | some p =>
      rw [ht] at h
      by_cases hlt : p.2 < x
      · simp [hlt] at h
        obtain ⟨hj, hm⟩ := h
        subst hj; subst hm
        cases k with
        | zero => simp at hk; subst hk; exact le_of_lt hlt
        | succ k2 =>
          simp at hk
          exact ih p.1 p.2 (by rw [ht]) k2 y hk
      · simp [hlt] at h
        obtain ⟨hj, hm⟩ := h
        subst hj; subst hm
        push_neg at hlt
        cases k with
        | zero => simp at hk; subst hk; exact le_refl _
        | succ k2 =>
          simp at hk
          exact le_trans hlt (ih p.1 p.2 (by rw [ht]) k2 y hk)

theorem idxminAux_first {α : Type} [LinearOrder α] :
    ∀ (xs : List α) (j : Nat) (m : α), idxminAux xs = some (j, m) →
      ∀ k : Nat, k < j → ∀ y : α, xs[k]? = some y → m < y := by
  intro xs
  induction xs with
  | nil => intro j m h; simp [idxminAux] at h
  | cons x t ih =>
    intro j m h k hk y hy
    simp only [idxminAux] at h
    cases ht : idxminAux t with
    | none =>
      rw [ht] at h
      simp at h
      obtain ⟨hj, _⟩ := h
      subst hj
      omega
    | some p =>
      rw [ht] at h
      by_cases hlt : p.2 < x
      · simp [hlt] at h
        obtain ⟨hj, hm⟩ := h
        subst hj; subst hm
        cases k with
        | zero => simp at hy; subst hy; exact hlt
        | succ k2 =>
          simp at hy
          exact ih p.1 p.2 (by rw [ht]) k2 (by omega) y hy
      · simp [hlt] at h
        obtain ⟨hj, _⟩ := h
        subst hj
        omega

theorem idxminOpt_getElem :
    ∀ (xs : List (Option Nat)) (j m : Nat), idxminOpt xs = some (j, m) →
      xs[j]? = some (some m) := by
  intro xs
  induction xs with
  | nil => intro j m h; simp [idxminOpt] at h
  | cons x t ih =>
    intro j m h
    cases x with
    | none =>
      simp only [idxminOpt] at h
      cases ht : idxminOpt t with
      | none => rw [ht] at h; simp at h
      | some p =>
        rw [ht] at h
        simp at h
        obtain ⟨hj, hm⟩ := h
        subst hj; subst hm
        simpa using ih p.1 p.2 (by rw [ht])
    | some v =>
      simp only [idxminOpt] at h
      cases ht : idxminOpt t with
      | none =>
        rw [ht] at h
        simp at h
        obtain ⟨hj, hm⟩ := h
        subst hj; subst hm
        simp
      | some p =>
        rw [ht] at h
        by_cases hlt : p.2 < v
        · simp [hlt] at h
          obtain ⟨hj, hm⟩ := h
          subst hj; subst hm
          simpa using ih p.1 p.2 (by rw [ht])
        · simp [hlt] at h
          obtain ⟨hj, hm⟩ := h
          subst hj; subst hm
          simp

theorem ewmGo_length (a : ℚ) (m : Nat) :
    ∀ (xs : Series) (prev : Option ℚ) (cnt : Nat),
      (ewmGo a m prev cnt xs).length = xs.length := by
  intro xs
  induction xs with
  | nil => intro prev cnt; rfl
  | cons x t ih =>
    intro prev cnt
    cases x with
    | none => simp [ewmGo, ih]
    | some v => simp [ewmGo, ih]

theorem ewmGo_early (a : ℚ) (m : Nat) :
    ∀ (xs : Series) (prev : Option ℚ) (cnt i : Nat), cnt + i + 1 < m →
      (ewmGo a m prev cnt xs).getD i none = none := by
  intro xs
  induction xs with
  | nil => intro prev cnt i _; simp [ewmGo, List.getD_nil]
  | cons x t ih =>
    intro prev cnt i hlt
    cases x with
    | none =>
      simp only [ewmGo]
      cases i with
      | zero =>
        rw [List.getD_cons_zero, if_neg (by omega)]
      | succ i2 =>
        rw [List.getD_cons_succ]
        exact ih prev cnt i2 (by omega)
    | some v =>
      simp only [ewmGo]
      cases i with
      | zero =>
        rw [List.getD_cons_zero, if_neg (by omega)]
      | succ i2 =>
        rw [List.getD_cons_succ]
        exact ih _ (cnt + 1) i2 (by omega)

theorem ewmGo_zeros (a : ℚ) (m : Nat) :
    ∀ (n : Nat) (prev : Option ℚ) (cnt : Nat), (prev = none ∨ prev = some 0) →
      ∀ x ∈ ewmGo a m prev cnt (List.replicate n (some 0)),
        x = none ∨ x = some 0 := by
  intro n
  induction n with
  | zero => intro prev cnt _ x hx; simp [ewmGo] at hx
  | succ k ih =>
    intro prev cnt hprev x hx
    rw [List.replicate_succ] at hx
    have hmean :
        (match prev with
          | none => (0 : ℚ)
          | some p => (1 - a) * p + a * 0) = 0 := by
      rcases hprev with h | h <;> subst h <;> simp
    simp only [ewmGo] at hx
    rw [hmean] at hx
    rcases List.mem_cons.mp hx with h | h
    · subst h
      split
      · right; rfl
      · left; rfl
    · exact ih (some 0) (cnt + 1) (Or.inr rfl) x h

theorem map_replaceZero_zeros :
    ∀ l : Series, (∀ x ∈ l, x = none ∨ x = some 0) →
      l.map replaceZero = List.replicate l.length none := by
  intro l
  induction l with
  | nil => intro _; rfl
  | cons x t ih =>
    intro h
    have hx := h x (by simp)
    have hrest := ih (fun y hy => h y (by simp [hy]))
    rcases hx with hx | hx <;> subst hx <;>
      simp only [List.map_cons, List.length_cons, List.replicate_succ, hrest] <;>
      rfl

theorem zipWith_odiv_replicate_none :
    ∀ (l : Series) (n : Nat),
      List.zipWith odiv l (List.replicate n none) =
        List.replicate (min l.length n) none := by
  intro l
  induction l with
  | nil => intro n; simp
  | cons x t ih =>
    intro n
    cases n with
    | zero => simp
    | succ k =>
      rw [List.replicate_succ, List.zipWith_cons_cons, ih]
      have hx : odiv x none = none := by cases x <;> rfl
      rw [hx]
      simp only [List.length_cons]
      rw [show min (t.length + 1) (k + 1) = min t.length k + 1 by omega]
      rw [List.replicate_succ]

theorem seriesDiff_length (xs : Series) : (seriesDiff xs).length = xs.length := by
  cases xs with
  | nil => rfl
  | cons x t => simp [seriesDiff, List.length_zipWith]

theorem avgGain_length (close : Series) (p : Nat) :
    (avgGain close p).length = close.length := by
  unfold avgGain ewmWilder whereWithPos
  rw [ewmGo_length, List.length_map, seriesDiff_length]

theorem avgLoss_length (close : Series) (p : Nat) :
    (avgLoss close p).length = close.length := by
  unfold avgLoss ewmWilder lossesOf
  rw [ewmGo_length, List.length_map, seriesDiff_length]

theorem rsi_length (close : Series) (p : Nat) :
    (rsi close p).length = close.length := by
  unfold rsi
  rw [List.length_map, List.length_zipWith, List.length_map,
    avgGain_length, avgLoss_length, min_self]

theorem zipWith_osub_const (c : ℚ) :
    ∀ (k j : Nat), k ≤ j →
      List.zipWith osub (List.replicate k (some c)) (List.replicate j (some c)) =
        List.replicate k (some 0) := by
  intro k
  induction k with
  | zero => intro j _; simp
  | succ k2 ih =>
    intro j hkj
    cases j with
    | zero => omega
    | succ j2 =>
      rw [List.replicate_succ, List.replicate_succ (some c) j2,
        List.zipWith_cons_cons, ih j2 (by omega)]
      have : osub (some c) (some c) = some 0 := by simp [osub]
      rw [this, List.replicate_succ]

theorem whereWithPos_diff_const (c : ℚ) :
    ∀ n : Nat, whereWithPos (seriesDiff (List.replicate n (some c))) =
      List.replicate n (some 0) := by
  intro n
  cases n with
  | zero => rfl
  | succ k =>
    rw [List.replicate_succ]
    simp only [seriesDiff]
    rw [show (some c :: List.replicate k (some c) : Series) =
      List.replicate (k + 1) (some c) from (List.replicate_succ _ _).symm]
    rw [zipWith_osub_const c k (k + 1) (by omega)]
    simp only [whereWithPos, List.map_cons, List.map_replicate]
    rw [List.replicate_succ]
    simp

theorem lossesOf_diff_const (c : ℚ) :
    ∀ n : Nat, lossesOf (seriesDiff (List.replicate n (some c))) =
      List.replicate n (some 0) := by
  intro n
  cases n with
  | zero => rfl
  | succ k =>
    rw [List.replicate_succ]
    simp only [seriesDiff]
    rw [show (some c :: List.replicate k (some c) : Series) =
      List.replicate (k + 1) (some c) from (List.replicate_succ _ _).symm]
    rw [zipWith_osub_const c k (k + 1) (by omega)]
    simp only [lossesOf, List.map_cons, List.map_replicate]
    rw [List.replicate_succ]
    simp

/-! ## Indicator claims -/

/-- C5: `rsi` returns exactly 50 at every row of a constant close series;
more generally any row whose Wilder-smoothed average loss is zero has
RSI 50 (avgLoss 0 is replaced by NaN, the ratio and the RSI formula go
NaN, and the final fill maps NaN to 50). -/
theorem C5_thm :
    (∀ (n : Nat) (c : ℚ) (p : Nat),
      rsi (List.replicate n (some c)) p = List.replicate n (some 50)) ∧
    (∀ (close : Series) (p i : Nat),
      (avgLoss close p)[i]? = some (some 0) →
      (rsi close p)[i]? = some (some 50)) := by
  constructor
  · intro n c p
    unfold rsi avgGain avgLoss ewmWilder
    rw [whereWithPos_diff_const, lossesOf_diff_const]
    rw [map_replaceZero_zeros _ (ewmGo_zeros _ _ n none 0 (Or.inl rfl))]
    rw [ewmGo_length, List.length_replicate]
    rw [zipWith_odiv_replicate_none]
    rw [ewmGo_length, List.length_replicate, min_self]
    rw [List.map_replicate]
    rfl
  · intro close p i h
    have hlen : i < close.length := by
      have h1 := (List.getElem?_eq_some.mp h).1
      rw [avgLoss_length] at h1
      exact h1
    have hag : ∃ w, (avgGain close p)[i]? = some w := by
      have h2 : i < (avgGain close p).length := by
        rw [avgGain_length]; exact hlen
      exact ⟨_, List.getElem?_eq_getElem h2⟩
    obtain ⟨w, hw⟩ := hag
    unfold rsi
    rw [List.getElem?_map, List.getElem?_zipWith, hw, List.getElem?_map, h]
    cases w <;> rfl

/-- Witness for C5: a concrete flat series, period 2, row 1. -/
theorem C5_witness :
    (rsi [some 10, some 10, some 10] 2)[1]? = some (some 50) :=
  C5_thm.2 [some 10, some 10, some 10] 2 1 (by with_unfolding_all rfl)

/-- C4 amended: `atr` is missing before row `period - 1`; `rsi` and `adx`
are not missing there - their degenerate-case fills catch the warm-up NaNs
too, yielding 50 resp. 0 - and indicators built from `shift`/`diff`
(`momentum`) are missing on the first `period` rows even though every
rolling operation outside RSI/ATR/ADX uses `min_periods=1`. -/
theorem C4_amended :
    (∀ (high low close : Series) (p i : Nat), i + 1 < p →
      (atr high low close p).getD i none = none) ∧
    (∀ (close : Series) (p i : Nat), i + 1 < p → i < (rsi close p).length →
      (rsi close p).getD i none = some 50) ∧
    (∀ (high low close : Series) (p i : Nat), i + 1 < p →
      i < (adx high low close p).length →
      (adx high low close p).getD i none = some 0) ∧
    (∀ (close : Series) (p i : Nat), i < p →
      (momentum close p).getD i none = none) := by
  refine ⟨?_, ?_, ?_, ?_⟩
  · intro high low close p i hip
    unfold atr ewmWilder
    exact ewmGo_early _ _ _ none 0 i (by omega)
  · intro close p i hip hlen
    have hi2 : i < (avgGain close p).length := by
      rw [avgGain_length]
      rw [rsi_length] at hlen
      exact hlen
    obtain ⟨w, hw⟩ : ∃ w, (avgGain close p)[i]? = some w :=
      ⟨_, List.getElem?_eq_getElem hi2⟩
    have hwn : w = none := by
      have hag : (avgGain close p).getD i none = none := by
        unfold avgGain ewmWilder
        exact ewmGo_early _ _ _ none 0 i (by omega)
      rw [List.getD_eq_getElem?_getD, hw] at hag
      simpa using hag
    subst hwn
    have hi3 : i < ((avgLoss close p).map replaceZero).length := by
      rw [List.length_map, avgLoss_length]
      rw [rsi_length] at hlen
      exact hlen
    obtain ⟨w2, hw2⟩ : ∃ w2, ((avgLoss close p).map replaceZero)[i]? = some w2 :=
      ⟨_, List.getElem?_eq_getElem hi3⟩
    rw [List.getD_eq_getElem?_getD]
    unfold rsi
    rw [List.getElem?_map, List.getElem?_zipWith, hw, hw2]
    cases w2 <;> rfl
  · intro high low close p i hip hlen
    have hi2 : i < (ewmWilder (1 / (p : ℚ)) p (adxDx high low close p)).length := by
      unfold adx at hlen
      rw [List.length_map] at hlen
      exact hlen
    obtain ⟨w, hw⟩ :
        ∃ w, (ewmWilder (1 / (p : ℚ)) p (adxDx high low close p))[i]? = some w :=
      ⟨_, List.getElem?_eq_getElem hi2⟩
    have hwn : w = none := by
      have hearly :
          (ewmWilder (1 / (p : ℚ)) p (adxDx high low close p)).getD i none = none := by
        unfold ewmWilder
        exact ewmGo_early _ _ _ none 0 i (by omega)
      rw [List.getD_eq_getElem?_getD, hw] at hearly
      simpa using hearly
    subst hwn
    rw [List.getD_eq_getElem?_getD]
    unfold adx
    rw [List.getElem?_map, hw]
    rfl
  · intro close p i hip
    rw [List.getD_eq_getElem?_getD]
    unfold momentum
    rw [List.getElem?_zipWith]
    cases hc : close[i]? with
    | none => cases hs : (shiftN p close)[i]? <;> rfl
    | some v =>
      have hi : i < close.length := (List.getElem?_eq_some.mp hc).1
      have hs : (shiftN p close)[i]? = some none := by
        unfold shiftN
        rw [List.getElem?_take, if_pos hi, List.getElem?_append]
        simp only [List.length_replicate]
        rw [if_pos hip, List.getElem?_replicate, if_pos hip]
      rw [hs]
      cases v <;> rfl

/-- Counterexample to C4 as stated: with period 3 the RSI at rows 0 and 1
(before `period - 1 = 2` observations) is the substituted value 50, not
missing, and `momentum` - not Wilder-smoothed - is missing at row 0 rather
than defined from the first row. -/
theorem C4_cex :
    rsi [some 10, some 11, some 12] 3 = [some 50, some 50, some 50] ∧
    momentum [some 10, some 11] 1 = [none, some 1] := by
  constructor <;> with_unfolding_all rfl

/-- Witness for C4 amended at concrete inputs. -/
theorem C4_witness :
    (atr [some 2] [some 1] [some 1] 3).getD 0 none = none ∧
    (rsi [some 10, some 11, some 12] 3).getD 0 none = some 50 ∧
    (adx [some 2] [some 1] [some 1] 3).getD 0 none = some 0 ∧
    (momentum [some 10, some 11] 1).getD 0 none = none :=
  ⟨C4_amended.1 [some 2] [some 1] [some 1] 3 0 (by omega),
   C4_amended.2.1 [some 10, some 11, some 12] 3 0 (by omega) (by decide),
   C4_amended.2.2.1 [some 2] [some 1] [some 1] 3 0 (by omega) (by decide),
   C4_amended.2.2.2 [some 10, some 11] 1 0 (by omega)⟩

/-- C8: `sma` is the min-periods-1 rolling mean - every row with at least
one observation in its (shrinking) window is defined - and on closes
`[10, 20, 30, 40]` with period 3 it yields exactly `[10, 15, 20, 30]`. -/
theorem C8_thm :
    (∀ (xs : Series) (p : Nat), 0 < p → (∀ x ∈ xs, x.isSome = true) →
      ∀ i : Nat, i < xs.length → ((sma xs p).getD i none).isSome = true) ∧
    sma [some 10, some 20, some 30, some 40] 3 =
      [some 10, some 15, some 20, some 30] := by
  constructor
  · intro xs p hp hall i hi
    rw [List.getD_eq_getElem?_getD]
    unfold sma
    rw [List.getElem?_map, List.getElem?_range hi, Option.map_some']
    have hw : ¬ (smaWindow xs p i).isEmpty = true := by
      have hlen : 0 < ((xs.take (i + 1)).drop (i + 1 - p)).length := by
        rw [List.length_drop, List.length_take]
        omega
      obtain ⟨w, hwmem⟩ := List.exists_mem_of_length_pos hlen
      have hws := hall w (List.mem_of_mem_take (List.mem_of_mem_drop hwmem))
      intro hemp
      rw [List.isEmpty_iff] at hemp
      have hid := (List.filterMap_eq_nil_iff.mp hemp) w hwmem
      cases w with
      | none => simp at hws
      | some v => simp at hid
    rw [if_neg hw]
    rfl
  · with_unfolding_all rfl

/-- Witness for C8 at the concrete series of the claim. -/
theorem C8_witness :
    ((sma [some 10, some 20, some 30, some 40] 3).getD 0 none).isSome = true :=
  C8_thm.1 [some 10, some 20, some 30, some 40] 3 (by omega) (by decide) 0
    (by decide)

/-! ## Expiry resolution (C7) -/

theorem find?_sorted_min {l : List Int}
    (hs : List.Sorted (fun a b => a ≤ b) l) (d x : Int)
    (h : l.find? (fun e => decide (d ≤ e)) = some x) :
    ∀ y ∈ l, d ≤ y → x ≤ y := by
  induction l with
  | nil => simp at h
  | cons a t ih =>
    intro y hy hdy
    by_cases hda : d ≤ a
    · rw [List.find?_cons_of_pos _ (by simpa using hda)] at h
      have hax : a = x := by simpa using h
      subst hax
      rcases List.mem_cons.mp hy with hya | hyt
      · subst hya; exact le_refl y
      · exact (List.sorted_cons.mp hs).1 y hyt
    · rw [List.find?_cons_of_neg _ (by simpa using hda)] at h
      rcases List.mem_cons.mp hy with hya | hyt
      · subst hya; exact absurd hdy hda
      · exact ih (List.sorted_cons.mp hs).2 h y hyt hdy

theorem mem_getAvailableExpiries (l : OptLoader) (e : Int) :
    e ∈ getAvailableExpiries l ↔ e ∈ l.expiryFolders.map Prod.fst := by
  unfold getAvailableExpiries
  exact (List.perm_insertionSort _ _).mem_iff

theorem sorted_getAvailableExpiries (l : OptLoader) :
    List.Sorted (fun a b => a ≤ b) (getAvailableExpiries l) :=
  List.sorted_insertionSort _ _

/-- C7: `get_expiry_for_date` returns the minimum expiry of the scanned
index on or after the queried date, and returns none exactly when every
expiry in the index is strictly before it. -/
theorem C7_thm (l : OptLoader) (d : Int) :
    (∀ e : Int, getExpiryForDate l d = some e →
      e ∈ l.expiryFolders.map Prod.fst ∧ d ≤ e ∧
        ∀ x ∈ l.expiryFolders.map Prod.fst, d ≤ x → e ≤ x) ∧
    (getExpiryForDate l d = none ↔
      ∀ x ∈ l.expiryFolders.map Prod.fst, x < d) := by
  constructor
  · intro e h
    unfold getExpiryForDate at h
    refine ⟨?_, ?_, ?_⟩
    · exact (mem_getAvailableExpiries l e).mp (List.mem_of_find?_eq_some h)
    · simpa using List.find?_some h
    · intro x hx hdx
      exact find?_sorted_min (sorted_getAvailableExpiries l) d e h x
        ((mem_getAvailableExpiries l x).mpr hx) hdx
  · unfold getExpiryForDate
    rw [List.find?_eq_none]
    constructor
    · intro h x hx
      have := h x ((mem_getAvailableExpiries l x).mpr hx)
      simpa using this
    · intro h x hx
      have := h x ((mem_getAvailableExpiries l x).mp hx)
      simpa using this

/-- Witness for C7: on the example loader, date 0 resolves to expiry 1 and
that is the minimum listed expiry on or after 0. -/
theorem C7_witness :
    (1 : Int) ∈ exLoader.expiryFolders.map Prod.fst ∧ (0 : Int) ≤ 1 :=
  ⟨((C7_thm exLoader 0).1 1 (by decide)).1, ((C7_thm exLoader 0).1 1 (by decide)).2.1⟩

/-! ## Nearest-bar matching (C1) -/

theorem mkQuote_datetime (df : Frame) (row : List Cell) (t : Int) (q : Quote)
    (h : mkQuote df row t = Except.ok q) : q.datetime = t := by
  unfold mkQuote at h
  cases h1 : colAt df row "open" with
  | error m1 => rw [h1] at h; exact Except.noConfusion h
  | ok oc =>
    rw [h1] at h
    cases h2 : colAt df row "high" with
    | error m2 => rw [h2] at h; exact Except.noConfusion h
    | ok hc =>
      rw [h2] at h
      cases h3 : colAt df row "low" with
      | error m3 => rw [h3] at h; exact Except.noConfusion h
      | ok lc =>
        rw [h3] at h
        cases h4 : colAt df row "close" with
        | error m4 => rw [h4] at h; exact Except.noConfusion h
        | ok cc =>
          rw [h4] at h
          cases h5 : intOrDefault df row "volume" with
          | error m5 => rw [h5] at h; exact Except.noConfusion h
          | ok vol =>
            rw [h5] at h
            cases h6 : intOrDefault df row "oi" with
            | error m6 => rw [h6] at h; exact Except.noConfusion h
            | ok oiv =>
              rw [h6] at h
              injection h with h7
              subst h7
              rfl

theorem priceFromFrame_tol (df : Frame) (ts tolMin : Int) (q : Quote)
    (h : priceFromFrame df ts tolMin = Except.ok (some q)) :
    ((q.datetime - ts).natAbs : Int) ≤ tolMin * 60 := by
  unfold priceFromFrame at h
  split at h
  · simp at h
  · split at h
    · exact Except.noConfusion h
    · rename_i frs heq1
      split at h
      · simp at h
      · split at h
        · simp at h
        · rename_i j m heq2
          split at h
          · simp at h
          · rename_i hguard
            split at h
            rename_i row t heq3
            cases hmk : mkQuote df row t with
            | error msg => rw [hmk] at h; exact Except.noConfusion h
            | ok q2 =>
              rw [hmk] at h
              simp only [Except.map] at h
              have hq2 : q2 = q := by simpa using h
              subst hq2
              have hjm := idxminAux_getElem _ j m heq2
              rw [List.getElem?_map] at hjm
              cases hfr : frs[j]? with
              | none => rw [hfr] at hjm; simp at hjm
              | some pr =>
                rw [hfr] at hjm
                simp at hjm
                have hgetd : frs.getD j ([], 0) = pr := by
                  rw [List.getD_eq_getElem?_getD, hfr]; rfl
                rw [heq3] at hgetd
                have ht : t = pr.2 := by rw [← hgetd]
                have hdt := mkQuote_datetime df row t q2 hmk
                rw [hdt, ht, hjm]
                omega

theorem priceFromFrame_tie (df : Frame) (ts tolMin : Int) (q : Quote)
    (frs : List (List Cell × Int))
    (hf : sameDateRows df ts = some frs)
    (hsorted : List.Pairwise (fun a b => a.2 ≤ b.2) frs)
    (h : priceFromFrame df ts tolMin = Except.ok (some q)) :
    ∀ pr ∈ frs, (pr.2 - ts).natAbs = (q.datetime - ts).natAbs →
      q.datetime ≤ pr.2 := by
  intro pr hpr hdist
  unfold priceFromFrame at h
  split at h
  · simp at h
  · split at h
    · exact Except.noConfusion h
    · rename_i frs2 heq1
      have hfrs : frs2 = frs := by
        rw [hf] at heq1
        simpa using heq1.symm
      subst hfrs
      split at h
      · simp at h
      · split at h
        · simp at h
        · rename_i j m heq2
          split at h
          · simp at h
          · rename_i hguard
            split at h
            rename_i row t heq3
            cases hmk : mkQuote df row t with
            | error msg => rw [hmk] at h; exact Except.noConfusion h
            | ok q2 =>
              rw [hmk] at h
              simp only [Except.map] at h
              have hq2 : q2 = q := by simpa using h
              subst hq2
              have hjm := idxminAux_getElem _ j m heq2
              rw [List.getElem?_map] at hjm
              cases hfr : frs2[j]? with
              | none => rw [hfr] at hjm; simp at hjm
              | some pr0 =>
                rw [hfr] at hjm
                simp at hjm
                have hgetd : frs2.getD j ([], 0) = pr0 := by
                  rw [List.getD_eq_getElem?_getD, hfr]; rfl
                rw [heq3] at hgetd
                have ht : t = pr0.2 := by rw [← hgetd]
                have hdtq := mkQuote_datetime df row t q2 hmk
                obtain ⟨k, hklt, hkpr⟩ := List.getElem_of_mem hpr
                have hkpr2 : frs2[k]? = some pr := by
                  rw [List.getElem?_eq_getElem hklt, hkpr]
                have hdk : (frs2.map (fun p => (p.2 - ts).natAbs))[k]? =
                    some ((pr.2 - ts).natAbs) := by
                  rw [List.getElem?_map, hkpr2]
                  rfl
                have hdm : (pr.2 - ts).natAbs = m := by
                  rw [hdist, hdtq, ht, hjm]
                have hjk : j ≤ k := by
                  by_contra hjk
                  push_neg at hjk
                  have := idxminAux_first _ j m heq2 k hjk _ hdk
                  omega
                rw [hdtq, ht]
                rcases Nat.eq_or_lt_of_le hjk with hje | hjlt
                · subst hje
                  have : pr0 = pr := by
                    rw [List.getElem?_eq_getElem hklt] at hfr
                    rw [hkpr] at hfr
                    simpa using hfr.symm
                  rw [this]
                · have hjl : j < frs2.length := by
                    have := (List.getElem?_eq_some.mp hfr).1
                    exact this
                  have hp := List.pairwise_iff_getElem.mp hsorted j k hjl hklt hjlt
                  have hj0 : frs2[j] = pr0 := by
                    rw [List.getElem?_eq_getElem hjl] at hfr
                    simpa using hfr
                  have hk0 : frs2[k] = pr := hkpr
                  rw [hj0, hk0] at hp
                  exact hp

theorem spotPick_tol (f : Frame) (ts tolMin : Int) (t : Int) (v : Option ℚ)
    (h : spotPick f ts tolMin = Except.ok (some (t, v))) :
    ((t - ts).natAbs : Int) ≤ tolMin * 60 := by
  unfold spotPick at h
  split at h
  · simp at h
  · split at h
    · exact Except.noConfusion h
    · rename_i cells heq1
      split at h
      · exact Except.noConfusion h
      · rename_i j m heq2
        split at h
        · simp at h
        · rename_i hguard
          split at h
          · exact Except.noConfusion h
          · rename_i cl heq3
            simp at h
            obtain ⟨ht, _⟩ := h
            have hjm := idxminOpt_getElem _ j m heq2
            rw [List.getElem?_map] at hjm
            cases hc : cells[j]? with
            | none => rw [hc] at hjm; simp at hjm
            | some cl2 =>
              rw [hc] at hjm
              simp at hjm
              cases hdt : cl2.asDt with
              | none => rw [hdt] at hjm; simp at hjm
              | some t0 =>
                rw [hdt] at hjm
                simp at hjm
                rw [hc] at ht
                simp only [Option.getD_some] at ht
                rw [hdt] at ht
                simp only [Option.getD_some] at ht
                subst ht
                rw [hjm]
                omega

/-- C1 amended: a returned option or spot bar never lies farther than
`tolerance_minutes` from the query timestamp; among the same-date rows the
bar returned is the first one (in the table's stored row order) attaining
the minimal distance, so the earlier of two equidistant bars wins exactly
when the rows are stored in ascending time order - which the options
loader does not itself guarantee. -/
theorem C1_amended :
    (∀ (l : OptLoader) (e : Int) (s : Strike) (ot : String) (ts tolMin : Int)
        (q : Quote),
      (getOptionPriceAtTime l e s ot ts tolMin).1 = Except.ok (some q) →
      ((q.datetime - ts).natAbs : Int) ≤ tolMin * 60) ∧
    (∀ (df : Frame) (ts tolMin : Int) (q : Quote)
        (frs : List (List Cell × Int)),
      sameDateRows df ts = some frs →
      List.Pairwise (fun a b => a.2 ≤ b.2) frs →
      priceFromFrame df ts tolMin = Except.ok (some q) →
      ∀ pr ∈ frs, (pr.2 - ts).natAbs = (q.datetime - ts).natAbs →
        q.datetime ≤ pr.2) ∧
    (∀ (sl : SpotLoader) (ts tolMin : Int) (v : Option ℚ),
      getSpotPriceAtTime sl ts tolMin = Except.ok (some v) →
      ∃ (f : Frame) (t : Int),
        getDataForDate sl (dateOf ts) = Except.ok f ∧
        spotPick f ts tolMin = Except.ok (some (t, v)) ∧
        ((t - ts).natAbs : Int) ≤ tolMin * 60) := by
  refine ⟨?_, ?_, ?_⟩
  · intro l e s ot ts tolMin q h
    unfold getOptionPriceAtTime at h
    cases hld : loadOptionData l e s ot with
    | mk df2 l2 =>
      rw [hld] at h
      cases df2 with
      | none => simp at h
      | some df =>
        exact priceFromFrame_tol df ts tolMin q h
  · intro df ts tolMin q frs hf hsorted h
    exact priceFromFrame_tie df ts tolMin q frs hf hsorted h
  · intro sl ts tolMin v h
    unfold getSpotPriceAtTime at h
    split at h
    · exact Except.noConfusion h
    · rename_i f hgd
      split at h
      · exact Except.noConfusion h
      · rename_i r hsp
        injection h with h2
        cases r with
        | none => simp at h2
        | some pr =>
          obtain ⟨t0, v0⟩ := pr
          have hv : v0 = v := by simpa using h2
          subst hv
          exact ⟨f, t0, hgd, hsp, spotPick_tol f ts tolMin t0 v0 hsp⟩

/-- Counterexample to C1 as stated: in `exFrame` the two bars of the query
date sit at times 600 and 0, both 300 seconds from the query timestamp 300
and inside the 5-minute tolerance, yet the returned bar is the later one
(600) because it is stored first - the filter keeps file order and
`idxmin` keeps the first minimal row, not the earlier time. -/
theorem C1_cex :
    (getOptionPriceAtTime exLoader 1 exStrike "CE" 300 5).1 =
      Except.ok (some exQuote) ∧
    exQuote.datetime = 600 ∧
    ((pureLoadOptionData exFolders 1 exStrike "CE").bind
        (fun df => sameDateRows df 300)).map (List.map Prod.snd) =
      some [600, 0] ∧
    ((600 : Int) - 300).natAbs = ((0 : Int) - 300).natAbs ∧
    (0 : Int) < 600 := by
  refine ⟨?_, rfl, ?_, by decide, by decide⟩
  · with_unfolding_all rfl
  · with_unfolding_all rfl

/-- Witness for C1 amended: the concrete match of `C1_cex` is within the
5-minute tolerance. -/
theorem C1_amended_witness :
    ((exQuote.datetime - 300).natAbs : Int) ≤ 5 * 60 :=
  C1_amended.1 exLoader 1 exStrike "CE" 300 5 exQuote
    (by with_unfolding_all rfl)

/-! ## Soft-failure behaviour (C2) -/

theorem sameDateRows_row_mem (df : Frame) (ts : Int)
    (frs : List (List Cell × Int)) (h : sameDateRows df ts = some frs) :
    ∀ pr ∈ frs, pr.1 ∈ df.rows := by
  unfold sameDateRows at h
  cases hg : getCol df "datetime" with
  | none => rw [hg] at h; simp at h
  | some cells =>
    rw [hg] at h
    simp only [Option.map_some'] at h
    injection h with h2
    subst h2
    intro pr hpr
    obtain ⟨p0, hp0mem, hp0⟩ := List.mem_filterMap.mp hpr
    have hpr1 : pr.1 = p0.1 := by
      cases hdt : p0.2.asDt with
      | none => rw [hdt] at hp0; simp at hp0
      | some t =>
        rw [hdt] at hp0
        by_cases hd : dateOf t = dateOf ts
        · simp [hd] at hp0
          rw [← hp0]
        · simp [hd] at hp0
    rw [hpr1]
    exact (List.of_mem_zip hp0mem).1

theorem mkQuote_ok (df : Frame) (row : List Cell) (t : Int)
    (hwf : wellFormedFrame df) (hrow : row ∈ df.rows) :
    ∃ q, mkQuote df row t = Except.ok q := by
  have hcol : ∀ c : String, (findIdxA c df.header).isSome = true →
      ∃ cl, colAt df row c = Except.ok cl := by
    intro c hc
    unfold colAt
    obtain ⟨i, hi⟩ := Option.isSome_iff_exists.mp hc
    rw [hi]
    exact ⟨_, rfl⟩
  have hint : ∀ c : String, numericAt df c →
      ∃ z, intOrDefault df row c = Except.ok z := by
    intro c hc
    cases hfi : findIdxA c df.header with
    | none =>
      refine ⟨0, ?_⟩
      unfold intOrDefault
      rw [hfi]
    | some i =>
      obtain ⟨qv, hqv⟩ := Option.isSome_iff_exists.mp (hc i hfi row hrow)
      refine ⟨pyInt qv, ?_⟩
      unfold intOrDefault
      rw [hfi]
      dsimp only
      rw [hqv]
  obtain ⟨oc, hoc⟩ := hcol _ hwf.2.1
  obtain ⟨hc2, hhc⟩ := hcol _ hwf.2.2.1
  obtain ⟨lc, hlc⟩ := hcol _ hwf.2.2.2.1
  obtain ⟨cc, hcc⟩ := hcol _ hwf.2.2.2.2.1
  obtain ⟨vol, hvol⟩ := hint _ hwf.2.2.2.2.2.1
  obtain ⟨oiv, hoi⟩ := hint _ hwf.2.2.2.2.2.2
  unfold mkQuote
  rw [hoc, hhc, hlc, hcc, hvol, hoi]
  exact ⟨_, rfl⟩

theorem priceFromFrame_wf (df : Frame) (ts tolMin : Int)
    (hwf : wellFormedFrame df) :
    ∃ r, priceFromFrame df ts tolMin = Except.ok r := by
  unfold priceFromFrame
  split
  · exact ⟨none, rfl⟩
  · cases hsd : sameDateRows df ts with
    | none =>
      exfalso
      unfold sameDateRows getCol at hsd
      obtain ⟨i, hi⟩ := Option.isSome_iff_exists.mp hwf.1
      rw [hi] at hsd
      simp at hsd
    | some frs =>
      dsimp only
      by_cases hfe : frs.isEmpty
      · rw [if_pos hfe]; exact ⟨none, rfl⟩
      · rw [if_neg hfe]
        cases him : idxminAux (frs.map fun p => (p.2 - ts).natAbs) with
        | none => exact ⟨none, rfl⟩
        | some jm =>
          obtain ⟨j, m⟩ := jm
          dsimp only
          by_cases hg : tolMin * 60 < (m : Int)
          · rw [if_pos hg]; exact ⟨none, rfl⟩
          · rw [if_neg hg]
            have hjlt : j < frs.length := by
              have h1 := idxminAux_getElem _ j m him
              have h2 := (List.getElem?_eq_some.mp h1).1
              rw [List.length_map] at h2
              exact h2
            rcases hrt : frs.getD j ([], 0) with ⟨row, t⟩
            have hmem : (row, t) ∈ frs := by
              rw [← hrt, List.getD_eq_getElem?_getD,
                List.getElem?_eq_getElem hjlt]
              exact List.getElem_mem hjlt
            have hrmem := sameDateRows_row_mem df ts frs hsd (row, t) hmem
            obtain ⟨q, hq⟩ := mkQuote_ok df row t hwf hrmem
            dsimp only
            rw [hq]
            exact ⟨some q, rfl⟩

/-- C2 amended: misses stay soft - a failed or empty load makes
`get_option_price_at_time` return none, folder-mode `get_data_for_date`
returns an empty table when no candidate file exists, file mode never
raises, and `get_available_strikes` returns empty lists for an unknown
expiry - and `get_option_price_at_time` raises no exception whenever the
loaded table is well-formed; but on a loaded table missing its datetime or
price columns, or with a non-numeric volume/OI cell at the matched row, it
raises instead of returning none (see `C2_cex`), as does folder-mode
`get_data_for_date` on an unreadable file. -/
theorem C2_amended :
    (∀ (l : OptLoader) (e : Int) (s : Strike) (ot : String) (ts tolMin : Int),
      (loadOptionData l e s ot).1 = none →
      (getOptionPriceAtTime l e s ot ts tolMin).1 = Except.ok none) ∧
    (∀ (l : OptLoader) (e : Int) (s : Strike) (ot : String) (ts tolMin : Int)
        (df : Frame),
      (loadOptionData l e s ot).1 = some df → wellFormedFrame df →
      ∃ r, (getOptionPriceAtTime l e s ot ts tolMin).1 = Except.ok r) ∧
    (∀ (sl : SpotLoader) (d : Int), sl.isFolder = true →
      alookup d sl.filesIso = none → alookup d sl.filesCompact = none →
      getDataForDate sl d = Except.ok emptyFrame) ∧
    (∀ (sl : SpotLoader) (d : Int), sl.isFolder = false →
      ∃ f, getDataForDate sl d = Except.ok f) ∧
    (∀ (l : OptLoader) (e : Int),
      alookup (toString e) l.strikeCache = none →
      alookup e l.expiryFolders = none →
      (getAvailableStrikes l e).1 = Strikes.mk [] []) := by
  refine ⟨?_, ?_, ?_, ?_, ?_⟩
  · intro l e s ot ts tolMin h
    unfold getOptionPriceAtTime
    cases hld : loadOptionData l e s ot with
    | mk df2 l2 =>
      rw [hld] at h
      cases df2 with
      | none => rfl
      | some df => simp at h
  · intro l e s ot ts tolMin df h hwf
    unfold getOptionPriceAtTime
    cases hld : loadOptionData l e s ot with
    | mk df2 l2 =>
      rw [hld] at h
      cases df2 with
      | none => simp at h
      | some df3 =>
        have : df3 = df := by simpa using h
        subst this
        exact priceFromFrame_wf df3 ts tolMin hwf
  · intro sl d hfold hiso hcomp
    unfold getDataForDate
    rw [hfold, hiso, hcomp]
    rfl
  · intro sl d hfold
    unfold getDataForDate
    rw [hfold, if_neg (by simp : ¬ (false = true))]
    cases sl.data with
    | none => exact ⟨emptyFrame, rfl⟩
    | some f =>
      dsimp only
      cases hgc : getCol f "datetime" with
      | none => exact ⟨emptyFrame, rfl⟩
      | some cells => exact ⟨_, rfl⟩
  · intro l e hc hf
    unfold getAvailableStrikes
    rw [hc, hf]

/-- Counterexample to C2 as stated: the contract file `noDtFrame` loads
successfully (its read raises nothing) but has no timestamp-like column, so
`get_option_price_at_time` raises `KeyError` from `df['datetime']` instead
of returning none. -/
theorem C2_cex :
    (getOptionPriceAtTime noDtLoader 1 exStrike "CE" 300 5).1 =
      Except.error "KeyError: datetime" := by
  with_unfolding_all rfl

/-- Witness for C2 amended: an unknown expiry makes the price query return
none without raising. -/
theorem C2_witness :
    (getOptionPriceAtTime exLoader 99 exStrike "CE" 300 5).1 =
      Except.ok none :=
  C2_amended.1 exLoader 99 exStrike "CE" 300 5 (by with_unfolding_all rfl)

/-! ## Cache behaviour and file resolution (C6, C9, C10) -/

theorem load_cacheMiss (l : OptLoader) (e : Int) (s : Strike) (ot : String)
    (h : alookup (cacheKey e s ot) l.dataCache = none) :
    (loadOptionData l e s ot).1 =
      pureLoadOptionData l.expiryFolders e s ot := by
  unfold loadOptionData
  rw [h]
  cases hp : pureLoadOptionData l.expiryFolders e s ot <;> rfl

theorem load_expiryFolders (l : OptLoader) (e : Int) (s : Strike)
    (ot : String) :
    (loadOptionData l e s ot).2.expiryFolders = l.expiryFolders := by
  unfold loadOptionData
  cases halk : alookup (cacheKey e s ot) l.dataCache with
  | none => cases hp : pureLoadOptionData l.expiryFolders e s ot <;> rfl
  | some df => rfl

theorem upChar_cases (c : Char) :
    upChar c = c ∨ upChar c ∈ (['A', 'B', 'C', 'D', 'E', 'F', 'G', 'H', 'I',
      'J', 'K', 'L', 'M', 'N', 'O', 'P', 'Q', 'R', 'S', 'T', 'U', 'V', 'W',
      'X', 'Y', 'Z'] : List Char) := by
  unfold upChar
  split <;> first | (right; decide) | (left; rfl)

theorem upChar_of_upper :
    ∀ d ∈ (['A', 'B', 'C', 'D', 'E', 'F', 'G', 'H', 'I', 'J', 'K', 'L', 'M',
      'N', 'O', 'P', 'Q', 'R', 'S', 'T', 'U', 'V', 'W', 'X', 'Y',
      'Z'] : List Char), upChar d = d := by decide

theorem upChar_idem (c : Char) : upChar (upChar c) = upChar c := by
  rcases upChar_cases c with h | h
  · rw [h]; exact h
  · exact upChar_of_upper _ h

theorem pyUpper_idem (s : String) : pyUpper (pyUpper s) = pyUpper s := by
  show String.mk (((s.data.map upChar)).map upChar) = String.mk (s.data.map upChar)
  rw [List.map_map]
  exact congrArg String.mk
    (List.map_congr_left (fun a _ => by simp only [Function.comp]; exact upChar_idem a))

theorem pureLoad_upper (folders : List (Int × OptFolder)) (e : Int)
    (s : Strike) (ot : String) :
    pureLoadOptionData folders e s (pyUpper ot) =
      pureLoadOptionData folders e s ot := by
  unfold pureLoadOptionData resolveFile fileName1 fileName2 stampFrame
  simp only [pyUpper_idem]

theorem stringDataInj {a b : String} (h : a.data = b.data) : a = b := by
  cases a
  cases b
  exact congrArg String.mk (by simpa using h)

theorem cacheKey_inj_ot (e : Int) (s : Strike) (ot1 ot2 : String)
    (h : cacheKey e s ot1 = cacheKey e s ot2) : ot1 = ot2 := by
  unfold cacheKey at h
  have h2 : (toString e).data ++ '_' :: s.str.data ++ '_' :: ot1.data =
      (toString e).data ++ '_' :: s.str.data ++ '_' :: ot2.data := by
    simpa using congrArg String.data h
  have h3 := List.append_cancel_left h2
  injection h3 with h4 h5
  exact stringDataInj h5

/-- C6: file resolution of `load_option_data` - on a cache miss the result
is the cache-free load; an unknown expiry yields none; the exact strike
representation is tried first and the normalized `<int>.0` form only when
the exact name is absent; when neither exists the load is none; and for
strike 25000.0 with only `25000.0_CE.csv` on disk the load succeeds. -/
theorem C6_thm :
    (∀ (l : OptLoader) (e : Int) (s : Strike) (ot : String),
      alookup (cacheKey e s ot) l.dataCache = none →
      (loadOptionData l e s ot).1 =
        pureLoadOptionData l.expiryFolders e s ot) ∧
    (∀ (folders : List (Int × OptFolder)) (e : Int) (s : Strike)
        (ot : String),
      alookup e folders = none →
      pureLoadOptionData folders e s ot = none) ∧
    (∀ (folder : OptFolder) (s : Strike) (ot : String) (c : Option Frame),
      alookup (fileName1 s ot) folder = some c →
      resolveFile folder s ot = some c) ∧
    (∀ (folder : OptFolder) (s : Strike) (ot : String) (c : Option Frame),
      alookup (fileName1 s ot) folder = none →
      alookup (fileName2 s ot) folder = some c →
      resolveFile folder s ot = some c) ∧
    (∀ (folders : List (Int × OptFolder)) (e : Int) (s : Strike)
        (ot : String) (folder : OptFolder),
      alookup e folders = some folder →
      alookup (fileName1 s ot) folder = none →
      alookup (fileName2 s ot) folder = none →
      pureLoadOptionData folders e s ot = none) ∧
    (loadOptionData exLoader25 1 exStrike25 "CE").1.isSome = true := by
  refine ⟨load_cacheMiss, ?_, ?_, ?_, ?_, ?_⟩
  · intro folders e s ot h
    unfold pureLoadOptionData
    rw [h]
  · intro folder s ot c h
    unfold resolveFile
    rw [h]
  · intro folder s ot c h1 h2
    unfold resolveFile
    rw [h1, h2]
  · intro folders e s ot folder h1 h2 h3
    unfold pureLoadOptionData resolveFile
    rw [h1]
    dsimp only
    rw [h2, h3]
  · with_unfolding_all rfl

/-- Witness for C6: the exact-name hit on the example folder. -/
theorem C6_witness :
    resolveFile exFolder25 exStrike25 "CE" = some (some exFrame) :=
  C6_thm.2.2.1 exFolder25 exStrike25 "CE" (some exFrame)
    (by with_unfolding_all rfl)

/-- C9: `clear_cache` empties both caches, leaves the expiry index as built
at construction, and a repeated identical query after the clear reloads
from the (unchanged) folders and returns the same value as before. -/
theorem C9_thm (l : OptLoader) (e : Int) (s : Strike) (ot : String)
    (h : l.dataCache = []) :
    (clearCache (loadOptionData l e s ot).2).expiryFolders =
      l.expiryFolders ∧
    (clearCache (loadOptionData l e s ot).2).strikeCache = [] ∧
    (clearCache (loadOptionData l e s ot).2).dataCache = [] ∧
    (loadOptionData (clearCache (loadOptionData l e s ot).2) e s ot).1 =
      (loadOptionData l e s ot).1 := by
  have hmiss : alookup (cacheKey e s ot) l.dataCache = none := by
    rw [h]; rfl
  have hfold := load_expiryFolders l e s ot
  refine ⟨hfold, rfl, rfl, ?_⟩
  rw [load_cacheMiss l e s ot hmiss,
    load_cacheMiss (clearCache (loadOptionData l e s ot).2) e s ot rfl]
  show pureLoadOptionData (loadOptionData l e s ot).2.expiryFolders e s ot = _
  rw [hfold]

/-- Witness for C9 on the example loader. -/
theorem C9_witness :
    (loadOptionData (clearCache (loadOptionData exLoader 1 exStrike "CE").2)
      1 exStrike "CE").1 = (loadOptionData exLoader 1 exStrike "CE").1 :=
  (C9_thm exLoader 1 exStrike "CE" rfl).2.2.2

/-- C10: on a fresh cache, loading with any option-type string returns the
same value as loading with its uppercased form (file name and stamped
column both use the uppercased form), while the two calls use distinct
data-cache keys whenever the string is not already uppercase. -/
theorem C10_thm (l : OptLoader) (e : Int) (s : Strike) (ot : String)
    (h : l.dataCache = []) :
    (loadOptionData l e s ot).1 = (loadOptionData l e s (pyUpper ot)).1 ∧
    (ot ≠ pyUpper ot → cacheKey e s ot ≠ cacheKey e s (pyUpper ot)) := by
  constructor
  · rw [load_cacheMiss l e s ot (by rw [h]; rfl),
      load_cacheMiss l e s (pyUpper ot) (by rw [h]; rfl), pureLoad_upper]
  · intro hne heq
    exact hne (cacheKey_inj_ot e s ot (pyUpper ot) heq)

/-- Witness for C10 with the lowercase option type string. -/
theorem C10_witness :
    (loadOptionData exLoader 1 exStrike "ce").1 =
      (loadOptionData exLoader 1 exStrike (pyUpper "ce")).1 ∧
    cacheKey 1 exStrike "ce" ≠ cacheKey 1 exStrike (pyUpper "ce") :=
  ⟨(C10_thm exLoader 1 exStrike "ce" rfl).1,
   (C10_thm exLoader 1 exStrike "ce" rfl).2 (by decide)⟩

/-! ## Row-order preservation machinery (C3) -/

theorem findIdxA_append_self {α : Type} [DecidableEq α] (a : α) :
    ∀ l : List α, findIdxA a l = none →
      findIdxA a (l ++ [a]) = some l.length := by
  intro l
  induction l with
  | nil => intro _; simp [findIdxA]
  | cons x xs ih =>
    intro h
    by_cases hx : x = a
    · simp [findIdxA, hx] at h
    · simp only [findIdxA, if_neg hx, List.cons_append, List.append_eq,
        List.length_cons] at h ⊢
      cases hfi : findIdxA a xs with
      | none => rw [ih hfi]; rfl
      | some j => rw [hfi] at h; simp at h

theorem getCol_length (f : Frame) (c : String) (cells : List Cell)
    (h : getCol f c = some cells) : cells.length = f.rows.length := by
  unfold getCol at h
  cases hfi : findIdxA c f.header with
  | none => rw [hfi] at h; simp at h
  | some i =>
    rw [hfi] at h
    simp only [Option.map_some'] at h
    injection h with h2
    rw [← h2, List.length_map]

theorem setCol_rows_length (f : Frame) (c : String) (vals : List Cell)
    (h : vals.length = f.rows.length) :
    (setCol f c vals).rows.length = f.rows.length := by
  unfold setCol
  cases hfi : findIdxA c f.header <;>
    simp [List.length_zipWith, h]

theorem Rect_lowerHeader (f : Frame) (hr : f.Rect) :
    (lowerHeader f).Rect := by
  intro r hrm
  unfold lowerHeader at hrm ⊢
  simp only [List.length_map]
  exact hr r hrm

theorem Rect_setCol (f : Frame) (c : String) (vals : List Cell)
    (hr : f.Rect) (_hlen : vals.length = f.rows.length) :
    (setCol f c vals).Rect := by
  unfold setCol
  cases hfi : findIdxA c f.header with
  | some i =>
    intro r2 hmem
    obtain ⟨k, hk⟩ := List.mem_iff_getElem?.mp hmem
    rw [List.getElem?_zipWith] at hk
    cases hrk : f.rows[k]? with
    | none => rw [hrk] at hk; simp at hk
    | some r =>
      rw [hrk] at hk
      cases hvk : vals[k]? with
      | none => rw [hvk] at hk; simp at hk
      | some v =>
        rw [hvk] at hk
        simp only at hk
        injection hk with hk2
        have hrm : r ∈ f.rows := by
          obtain ⟨hlt, he⟩ := List.getElem?_eq_some.mp hrk
          rw [← he]
          exact List.getElem_mem hlt
        rw [← hk2]
        simp only [List.length_set]
        exact hr r hrm
  | none =>
    intro r2 hmem
    obtain ⟨k, hk⟩ := List.mem_iff_getElem?.mp hmem
    rw [List.getElem?_zipWith] at hk
    cases hrk : f.rows[k]? with
    | none => rw [hrk] at hk; simp at hk
    | some r =>
      rw [hrk] at hk
      cases hvk : vals[k]? with
      | none => rw [hvk] at hk; simp at hk
      | some v =>
        rw [hvk] at hk
        simp only at hk
        injection hk with hk2
        have hrm : r ∈ f.rows := by
          obtain ⟨hlt, he⟩ := List.getElem?_eq_some.mp hrk
          rw [← he]
          exact List.getElem_mem hlt
        rw [← hk2]
        simp only [List.length_append, List.length_cons, List.length_nil]
        rw [hr r hrm]

theorem getCol_setCol_ne (f : Frame) (c c2 : String) (vals : List Cell)
    (hne : c ≠ c2) (hr : f.Rect) (hlen : vals.length = f.rows.length) :
    getCol (setCol f c vals) c2 = getCol f c2 := by
  unfold setCol
  cases hfi : findIdxA c f.header with
  | some i =>
    unfold getCol
    simp only
    cases hfi2 : findIdxA c2 f.header with
    | none => rfl
    | some i2 =>
      simp only [Option.map_some', Option.some.injEq]
      have hii : i ≠ i2 := by
        intro he
        subst he
        have e1 := findIdxA_getElem c f.header i hfi
        have e2 := findIdxA_getElem c2 f.header i hfi2
        rw [e1] at e2
        exact hne (by injection e2)
      apply List.ext_getElem?
      intro k
      rw [List.getElem?_map, List.getElem?_map, List.getElem?_zipWith]
      cases hrk : f.rows[k]? with
      | none => rfl
      | some r =>
        have hvk : ∃ v, vals[k]? = some v := by
          have hk : k < vals.length := by
            rw [hlen]
            exact (List.getElem?_eq_some.mp hrk).1
          exact ⟨_, List.getElem?_eq_getElem hk⟩
        obtain ⟨v, hv⟩ := hvk
        rw [hv]
        simp only [Option.map_some', Option.some.injEq]
        rw [List.getD_eq_getElem?_getD, List.getD_eq_getElem?_getD,
          List.getElem?_set_ne hii]
  | none =>
    unfold getCol
    simp only
    cases hfi2 : findIdxA c2 f.header with
    | none =>
      rw [findIdxA_append_none hfi2 hne]
      rfl
    | some i2 =>
      rw [findIdxA_append_left c2 f.header [c] i2 hfi2]
      simp only [Option.map_some', Option.some.injEq]
      apply List.ext_getElem?
      intro k
      rw [List.getElem?_map, List.getElem?_map, List.getElem?_zipWith]
      cases hrk : f.rows[k]? with
      | none => rfl
      | some r =>
        have hvk : ∃ v, vals[k]? = some v := by
          have hk : k < vals.length := by
            rw [hlen]
            exact (List.getElem?_eq_some.mp hrk).1
          exact ⟨_, List.getElem?_eq_getElem hk⟩
        obtain ⟨v, hv⟩ := hvk
        rw [hv]
        simp only [Option.map_some', Option.some.injEq]
        have hrm : r ∈ f.rows := by
          obtain ⟨hlt, he⟩ := List.getElem?_eq_some.mp hrk
          rw [← he]
          exact List.getElem_mem hlt
        have hi2r : i2 < r.length := by
          rw [hr r hrm]
          exact findIdxA_lt_length hfi2
        rw [List.getD_eq_getElem?_getD, List.getD_eq_getElem?_getD,
          List.getElem?_append, if_pos hi2r]

theorem getCol_setCol_self (f : Frame) (c : String) (vals : List Cell)
    (hr : f.Rect) (hlen : vals.length = f.rows.length) :
    getCol (setCol f c vals) c = some vals := by
  unfold setCol
  cases hfi : findIdxA c f.header with
  | some i =>
    unfold getCol
    simp only [hfi, Option.map_some', Option.some.injEq]
    apply List.ext_getElem?
    intro k
    rw [List.getElem?_map, List.getElem?_zipWith]
    cases hrk : f.rows[k]? with
    | none =>
      have hkv : vals[k]? = none := by
        rw [List.getElem?_eq_none_iff] at hrk ⊢
        omega
      rw [hkv]
      rfl
    | some r =>
      have hvk : ∃ v, vals[k]? = some v := by
        have hk : k < vals.length := by
          rw [hlen]
          exact (List.getElem?_eq_some.mp hrk).1
        exact ⟨_, List.getElem?_eq_getElem hk⟩
      obtain ⟨v, hv⟩ := hvk
      rw [hv]
      simp only [Option.map_some']
      have hrm : r ∈ f.rows := by
        obtain ⟨hlt, he⟩ := List.getElem?_eq_some.mp hrk
        rw [← he]
        exact List.getElem_mem hlt
      have hir : i < r.length := by
        rw [hr r hrm]
        exact findIdxA_lt_length hfi
      rw [List.getD_eq_getElem?_getD, List.getElem?_set_self hir]
      rfl
  | none =>
    unfold getCol
    rw [findIdxA_append_self c f.header hfi]
    simp only [Option.map_some', Option.some.injEq]
    apply List.ext_getElem?
    intro k
    rw [List.getElem?_map, List.getElem?_zipWith]
    cases hrk : f.rows[k]? with
    | none =>
      have hkv : vals[k]? = none := by
        rw [List.getElem?_eq_none_iff] at hrk ⊢
        omega
      rw [hkv]
      rfl
    | some r =>
      have hvk : ∃ v, vals[k]? = some v := by
        have hk : k < vals.length := by
          rw [hlen]
          exact (List.getElem?_eq_some.mp hrk).1
        exact ⟨_, List.getElem?_eq_getElem hk⟩
      obtain ⟨v, hv⟩ := hvk
      rw [hv]
      simp only [Option.map_some']
      have hrm : r ∈ f.rows := by
        obtain ⟨hlt, he⟩ := List.getElem?_eq_some.mp hrk
        rw [← he]
        exact List.getElem_mem hlt
      have hlr : r.length = f.header.length := hr r hrm
      rw [List.getD_eq_getElem?_getD, List.getElem?_append,
        if_neg (by omega), hlr]
      simp

theorem Rect_coerceNumStep (g : Frame) (c : String) (hr : g.Rect) :
    (coerceNumStep g c).Rect := by
  unfold coerceNumStep
  cases hgc : getCol g c with
  | none => exact hr
  | some cells =>
    exact Rect_setCol g c (cells.map coerceNumCell) hr
      (by rw [List.length_map]; exact getCol_length g c cells hgc)

theorem rows_length_coerceNumStep (g : Frame) (c : String) :
    (coerceNumStep g c).rows.length = g.rows.length := by
  unfold coerceNumStep
  cases hgc : getCol g c with
  | none => rfl
  | some cells =>
    exact setCol_rows_length g c (cells.map coerceNumCell)
      (by rw [List.length_map]; exact getCol_length g c cells hgc)

theorem getCol_coerceNumStep_ne (g : Frame) (c c2 : String) (hne : c ≠ c2)
    (hr : g.Rect) : getCol (coerceNumStep g c) c2 = getCol g c2 := by
  unfold coerceNumStep
  cases hgc : getCol g c with
  | none => rfl
  | some cells =>
    exact getCol_setCol_ne g c c2 (cells.map coerceNumCell) hne hr
      (by rw [List.length_map]; exact getCol_length g c cells hgc)

theorem foldl_coerceNumStep (cs : List String) :
    ∀ g : Frame, g.Rect → "datetime" ∉ cs →
      getCol (cs.foldl coerceNumStep g) "datetime" = getCol g "datetime" ∧
      (cs.foldl coerceNumStep g).Rect := by
  induction cs with
  | nil => intro g hr _; exact ⟨rfl, hr⟩
  | cons c cs2 ih =>
    intro g hr hnm
    rw [List.foldl_cons]
    have hc : c ≠ "datetime" := by
      intro h
      subst h
      simp at hnm
    obtain ⟨ih1, ih2⟩ := ih (coerceNumStep g c) (Rect_coerceNumStep g c hr)
      (fun h => hnm (List.mem_cons_of_mem _ h))
    exact ⟨ih1.trans (getCol_coerceNumStep_ne g c "datetime" hc hr), ih2⟩

theorem foldl_rows_length (cs : List String) :
    ∀ g : Frame, (cs.foldl coerceNumStep g).rows.length = g.rows.length := by
  induction cs with
  | nil => intro g; rfl
  | cons c cs2 ih =>
    intro g
    rw [List.foldl_cons, ih (coerceNumStep g c), rows_length_coerceNumStep]

theorem applyNum_getCol_dt (g : Frame) (hr : g.Rect) :
    getCol (applyNum g) "datetime" = getCol g "datetime" :=
  (foldl_coerceNumStep _ g hr (by decide)).1

theorem Rect_applyNum (g : Frame) (hr : g.Rect) : (applyNum g).Rect :=
  (foldl_coerceNumStep _ g hr (by decide)).2

theorem rows_length_applyNum (g : Frame) :
    (applyNum g).rows.length = g.rows.length :=
  foldl_rows_length _ g

theorem Rect_applyDt (f : Frame) (hr : f.Rect) : (applyDt f).Rect := by
  unfold applyDt
  cases hfind : ["datetime", "date", "time", "timestamp"].find?
      (fun c => (findIdxA c f.header).isSome) with
  | none => exact hr
  | some c =>
    dsimp only
    cases hgc : getCol f c with
    | none => exact hr
    | some cells =>
      exact Rect_setCol f "datetime" (cells.map coerceDtCell) hr
        (by rw [List.length_map]; exact getCol_length f c cells hgc)

theorem rows_length_applyDt (f : Frame) :
    (applyDt f).rows.length = f.rows.length := by
  unfold applyDt
  cases hfind : ["datetime", "date", "time", "timestamp"].find?
      (fun c => (findIdxA c f.header).isSome) with
  | none => rfl
  | some c =>
    dsimp only
    cases hgc : getCol f c with
    | none => rfl
    | some cells =>
      exact setCol_rows_length f "datetime" (cells.map coerceDtCell)
        (by rw [List.length_map]; exact getCol_length f c cells hgc)

theorem Rect_standardize (f : Frame) (hr : f.Rect) : (standardize f).Rect :=
  Rect_applyNum _ (Rect_applyDt _ (Rect_lowerHeader f hr))

theorem rows_length_standardize (f : Frame) :
    (standardize f).rows.length = f.rows.length := by
  unfold standardize
  rw [rows_length_applyNum, rows_length_applyDt]
  rfl

theorem rows_length_stampFrame (df : Frame) (s : Strike) (ot : String) :
    (stampFrame df s ot).rows.length = df.rows.length := by
  unfold stampFrame
  rw [setCol_rows_length _ _ _ (by simp), setCol_rows_length _ _ _ (by simp)]

theorem getCol_stampFrame_dt (df : Frame) (s : Strike) (ot : String)
    (hr : df.Rect) :
    getCol (stampFrame df s ot) "datetime" = getCol df "datetime" := by
  unfold stampFrame
  rw [getCol_setCol_ne _ "option_type" "datetime" _ (by decide)
    (Rect_setCol df "strike" _ hr (by simp)) (by simp)]
  exact getCol_setCol_ne df "strike" "datetime" _ (by decide) hr (by simp)

/-- C3 amended: `load_option_data` standardizes and stamps the file it
resolves but applies no sort and no timestamp de-duplication - the returned
table's `datetime` column is exactly the source file's (coerced) timestamp
column in the file's own row order, and the row count is the file's - so
the rows are strictly ascending if and only if the file's already were
(`C3_cex` shows an out-of-order file loading out of order). -/
theorem C3_amended (folders : List (Int × OptFolder)) (e : Int) (s : Strike)
    (ot : String) (folder : OptFolder) (raw : Frame)
    (h1 : alookup e folders = some folder)
    (h2 : resolveFile folder s ot = some (some raw))
    (hr : Frame.Rect raw) :
    pureLoadOptionData folders e s ot =
      some (stampFrame (standardize raw) s ot) ∧
    getCol (stampFrame (standardize raw) s ot) "datetime" =
      getCol (standardize raw) "datetime" ∧
    (stampFrame (standardize raw) s ot).rows.length = raw.rows.length ∧
    ((findIdxA "datetime" (lowerHeader raw).header).isSome = true →
      getCol (standardize raw) "datetime" =
        (getCol (lowerHeader raw) "datetime").map
          (fun cells => cells.map coerceDtCell)) := by
  refine ⟨?_, ?_, ?_, ?_⟩
  · unfold pureLoadOptionData
    rw [h1]
    dsimp only
    rw [h2]
  · exact getCol_stampFrame_dt (standardize raw) s ot (Rect_standardize raw hr)
  · rw [rows_length_stampFrame, rows_length_standardize]
  · intro hp
    have hfind : ["datetime", "date", "time", "timestamp"].find?
        (fun c => (findIdxA c (lowerHeader raw).header).isSome) =
        some "datetime" :=
      List.find?_cons_of_pos _ hp
    unfold standardize applyDt
    rw [hfind]
    dsimp only
    cases hgc : getCol (lowerHeader raw) "datetime" with
    | none =>
      exfalso
      obtain ⟨i, hi⟩ := Option.isSome_iff_exists.mp hp
      unfold getCol at hgc
      rw [hi] at hgc
      simp at hgc
    | some cells =>
      have hrl : Frame.Rect (lowerHeader raw) := Rect_lowerHeader raw hr
      have hclen : (cells.map coerceDtCell).length =
          (lowerHeader raw).rows.length := by
        rw [List.length_map]
        exact getCol_length _ _ _ hgc
      rw [applyNum_getCol_dt _ (Rect_setCol _ _ _ hrl hclen)]
      rw [getCol_setCol_self _ _ _ hrl hclen]
      rfl

/-- Counterexample to C3 as stated: `exFrame` stores its two bars with
timestamps 600 then 0; the loaded table's `datetime` column preserves that
order, which is not strictly ascending. -/
theorem C3_cex :
    (pureLoadOptionData exFolders 1 exStrike "CE").bind
      (fun df => getCol df "datetime") = some [dtCell 600, dtCell 0] ∧
    ¬ ((600 : Int) ≤ 0) := by
  exact ⟨by with_unfolding_all rfl, by decide⟩

/-- Witness for C3 amended on the example folder. -/
theorem C3_witness :
    pureLoadOptionData exFolders 1 exStrike "CE" =
      some (stampFrame (standardize exFrame) exStrike "CE") :=
  (C3_amended exFolders 1 exStrike "CE" [("100_CE.csv", some exFrame)]
    exFrame (by with_unfolding_all rfl) (by with_unfolding_all rfl)
    (by intro r hrm; simp [exFrame] at hrm; rcases hrm with h | h <;>
      subst h <;> rfl)).1
